import Mathlib

/-!
# Formal model of the starx networking core

Shallow embedding, in Lean 4, of:

* the message frame codec (`message.Encode` / `message.Decode`,
  package `message`),
* the RPC client engine (`rpc.Client`: `send`, `input`, `Close`, `Go`),
* the cluster manager attachment methods
  (`Manager.RegisterServer` / `Manager.UpdateServer`, package `cluster`).

Bytes are modelled as `Nat` (values `< 256` where relevant); Go byte
slices become `List Nat`.  Go's 64-bit unsigned arithmetic is modelled
with explicit `% 2^64` at the operations where it can overflow.
-/


namespace message

/-- A decoded message, mirroring `message.Message`:
`Type MessageType; ID uint; Route string; Data []byte; compressed bool`.
The route is kept as its byte sequence. -/
structure Message where
  type : Nat
  id : Nat
  route : List Nat
  data : List Nat
  compressed : Bool
  deriving DecidableEq, Repr

/-- `msgRoute(t)`: the message type carries a route
(`t == Request || t == Notify || t == Push`, i.e. 0, 1 or 3). -/
def msgRoute (t : Nat) : Bool :=
  t = 0 || t = 1 || t = 3

/-- `invalidType(t)`: `t < Request || t > Push`.  `t` is a Go `byte`,
so `t < 0` is impossible and only `3 < t` remains. -/
def invalidType (t : Nat) : Bool :=
  3 < t

/-- The variant-length encoding loop in `Encode`
(`for { b := byte(n % 128); n >>= 7; ... }`): 7 payload bits per byte,
low group first, high bit set on every byte except the last. -/
def encodeVarint (n : Nat) : List Nat :=
  let b := n % 128
  let n' := n >>> 7
  if h : n' ≠ 0 then (b + 128) :: encodeVarint n' else [b]
termination_by n
decreasing_by
  simp only [Nat.shiftRight_eq_div_pow] at h ⊢
  omega

/-- The variant-length decoding loop in `Decode`
(`for i := offset; i < len(data); i++ { ... }`), run on the suffix of the
buffer that starts at `offset`.  `k` is `i - offset`, `id` the
accumulator; Go `uint` addition and shift wrap modulo `2^64`.
Returns the accumulated id and `some consumed` when a terminating byte
(`b < 128`) was found — Go then sets `offset = i + 1` — or `none` when
the loop ran off the end of the buffer, in which case Go leaves
`offset` unchanged. -/
def varintScan : List Nat → Nat → Nat → Nat × Option Nat
  | [], _, id => (id, none)
  | b :: rest, k, id =>
    let id' := (id + ((b &&& 0x7F) <<< (7 * k))) % 2 ^ 64
    if b < 128 then (id', some (k + 1)) else varintScan rest (k + 1) id'

/-- `message.Encode`.  The route dictionary (`routeDict`, a process-wide
global populated by `SetDict`) is passed as a parameter.  Returns `none`
exactly when the source returns `ErrWrongMessageType`. -/
def Encode (routeDict : List Nat → Option Nat) (m : Message) : Option (List Nat) :=
  if invalidType m.type then none
  else
    -- `code, compressed := routeDict[m.Route]`
    let compressed := (routeDict m.route).isSome
    let code := (routeDict m.route).getD 0
    -- `flag := byte(m.Type) << 1; if compressed { flag |= msgRouteCompressMask }`
    let flag := (m.type <<< 1) ||| (if compressed then 1 else 0)
    -- `if m.Type == Request || m.Type == Response { ... variant length encode ... }`
    let idPart := if m.type = 0 || m.type = 2 then encodeVarint m.id else []
    -- `if msgRoute(m.Type) { ... }`
    let routePart :=
      if msgRoute m.type then
        if compressed then
          [(code >>> 8) &&& 0xFF, code &&& 0xFF]
        else
          m.route.length % 256 :: m.route
      else []
    some (flag :: (idPart ++ (routePart ++ m.data)))

/-- Outcome of `message.Decode`: a message, one of its three error
returns, or a Go runtime panic (slice index/bound out of range). -/
inductive DecodeResult where
  | ok (m : Message)
  | errInvalidMessage
  | errWrongMessageType
  | errRouteInfoNotFound
  | panic
  deriving DecidableEq, Repr

/-- `message.Decode`.  The code dictionary (`codeDict`) is passed as a
parameter.  The function follows the source statement by statement;
slice expressions that Go would abort on (`data[offset:offset+2]`,
`data[offset]`, `data[offset:offset+int(rl)]` past the length) yield
`DecodeResult.panic`. -/
def Decode (codeDict : Nat → Option (List Nat)) (data : List Nat) : DecodeResult :=
  -- `if len(data) <= msgHeadLength` (3)
  if data.length ≤ 3 then .errInvalidMessage
  else
    let flag := data.headD 0
    -- `m.Type = MessageType((flag >> 1) & msgTypeMask)`
    let t := (flag >>> 1) &&& 0x07
    if invalidType t then .errWrongMessageType
    else
      -- `if m.Type == Request || m.Type == Response { ... }`; `offset` starts at 1
      let scanned :=
        if t = 0 || t = 2 then
          match varintScan (data.drop 1) 0 0 with
          | (v, some c) => (v, 1 + c)
          | (v, none) => (v, 1)
        else (0, 1)
      let id := scanned.1
      let offset := scanned.2
      if msgRoute t then
        if flag &&& 1 = 1 then
          -- compressed: `binary.BigEndian.Uint16(data[offset:(offset + 2)])`
          if offset + 2 ≤ data.length then
            let code := data.getD offset 0 * 256 + data.getD (offset + 1) 0
            match codeDict code with
            | none => .errRouteInfoNotFound
            | some route =>
              .ok ⟨t, id, route, data.drop (offset + 2), true⟩
          else .panic
        else
          -- literal: `rl := data[offset]; m.Route = string(data[offset:(offset+int(rl))])`
          if offset < data.length then
            let rl := data.getD offset 0
            if offset + 1 + rl ≤ data.length then
              .ok ⟨t, id, (data.drop (offset + 1)).take rl,
                   data.drop (offset + 1 + rl), false⟩
            else .panic
          else .panic
      else
        .ok ⟨t, id, [], data.drop offset, false⟩

/-- Well-formedness of a message, as the spec uses the term: a valid
kind, a route of at most 255 bytes when the kind carries one, no route
on a Response, and an id that fits Go's 64-bit `uint`. -/
def WellFormed (m : Message) : Prop :=
  m.type ≤ 3 ∧
  (msgRoute m.type = true → m.route.length ≤ 255) ∧
  (m.type = 2 → m.route = []) ∧
  m.id < 2 ^ 64

instance (m : Message) : Decidable (WellFormed m) := by
  unfold WellFormed; infer_instance

/-- The two global dictionaries form a usable bidirectional mapping:
every compression code decompresses back to its route and fits in the
two bytes (`uint16`) the wire format gives it. -/
def DictConsistent (routeDict : List Nat → Option Nat)
    (codeDict : Nat → Option (List Nat)) : Prop :=
  ∀ r c, routeDict r = some c → codeDict c = some r ∧ c < 2 ^ 16

end message

namespace cluster

/-- Mirror of `cluster.ServerConfig` (fields as used by the test
fixtures; their values never matter here because the unmarshal target is
a nil pointer). -/
structure ServerConfig where
  typ : String
  id : String
  host : String
  port : Nat
  isFrontend : Bool
  isMaster : Bool
  isWebsocket : Bool
  deriving DecidableEq

/-- Error class returned by `encoding/json.Unmarshal`. -/
inductive JsonError where
  | syntaxError
  | invalidUnmarshal
  deriving DecidableEq, Repr

/-- Model of Go's `encoding/json.Unmarshal` for this call site (the
standard library, external to the repository): it first validates the
JSON text (`checkValid`), returning a syntax error on malformed input,
and then rejects a nil (or non-pointer) unmarshal target with
`InvalidUnmarshalError`.  `valid` abstracts the JSON grammar check;
`targetIsNil` is whether the destination pointer is nil. -/
def jsonUnmarshal (valid : List Nat → Bool) (targetIsNil : Bool)
    (data : List Nat) : Option JsonError :=
  if valid data = false then some .syntaxError
  else if targetIsNil then some .invalidUnmarshal
  else none

/-- Result of a `Manager` attachment method: the returned error and
whether the underlying cluster operation was invoked. -/
structure AttachResult where
  err : Option JsonError
  invoked : Bool
  deriving DecidableEq, Repr

/-- `Manager.RegisterServer`:
`var newServerInfo *ServerConfig` (a nil pointer),
`err := json.Unmarshal(data, newServerInfo)`, early return on error,
otherwise `Register(newServerInfo)`. -/
def RegisterServer (valid : List Nat → Bool) (data : List Nat) : AttachResult :=
  let newServerInfo : Option ServerConfig := none
  match jsonUnmarshal valid newServerInfo.isNone data with
  | some e => ⟨some e, false⟩
  | none => ⟨none, true⟩

/-- `Manager.UpdateServer`: identical structure to `RegisterServer`,
calling `UpdateServer(newServerInfo)` on success. -/
def UpdateServer (valid : List Nat → Bool) (data : List Nat) : AttachResult :=
  let newServerInfo : Option ServerConfig := none
  match jsonUnmarshal valid newServerInfo.isNone data with
  | some e => ⟨some e, false⟩
  | none => ⟨none, true⟩


end cluster

namespace rpc

/-- Errors the client can attach to a call.  `shutdown` is
`ErrShutdown` ("connection is shut down"), `eof` is `io.EOF`,
`unexpectedEOF` is `io.ErrUnexpectedEOF`, `serverError` is the
`ServerError` wrapper around a response's error string, and `writeErr`
stands for a distinct stream-write (or marshal) failure. -/
inductive GoErr where
  | shutdown
  | eof
  | unexpectedEOF
  | serverError (s : String)
  | writeErr (n : Nat)
  deriving DecidableEq, Repr

/-- Kind of a decoded RPC response record.  The receive loop only
distinguishes `HandlerPush` / `HandlerResponse` (forwarded to
`ResponseChan`) from every other kind (matched against the pending
table); `remoteResponse` stands for the latter.  The record type itself
(`Response`, msgp-generated) is outside this repository; its fields
follow the spec's peer-record contract
(sequence number, kind, error string, payload). -/
inductive RespKind where
  | handlerPush
  | handlerResponse
  | remoteResponse
  deriving DecidableEq, Repr

/-- A decoded response record (`Response`): the fields the receive loop
reads. -/
structure Response where
  kind : RespKind
  seq : Nat
  error : String
  data : List Nat
  deriving DecidableEq, Repr

/-- An RPC `Call`.  `hasReply` is whether `Reply` is non-nil;
`error`/`reply` are the `Error` field and the bytes written through the
`Reply` pointer; `doneCount` counts invocations of `call.done()`
(the completion signal); `seqAssigned` is bookkeeping recording the
sequence number under which the call was registered in the pending
table (if any). -/
structure Call where
  hasReply : Bool
  error : Option GoErr
  reply : Option (List Nat)
  doneCount : Nat
  seqAssigned : Option Nat
  deriving DecidableEq, Repr

/-- Placeholder used with `List.getD`; never a reachable call. -/
def dummyCall : Call := ⟨false, none, none, 0, none⟩

/-- The mutable state of one `rpc.Client`:  `seq` and the pending map
(association list from sequence number to an index into `calls`, which
records every `Call` object ever created by this engine), the
`closing`/`shutdown` flags, the buffered `ResponseChan`, the number of
`writeRequest` invocations, and the receive loop's accumulation buffer
`codec.buf`.  The two mutexes serialise the operations; the model makes
each locked region one atomic step. -/
structure ClientState where
  seq : Nat
  pending : List (Nat × Nat)
  calls : List Call
  closing : Bool
  shutdown : Bool
  responseChan : List Response
  writeCalls : Nat
  buf : List Nat
  deriving DecidableEq, Repr

/-- The state `NewClient` starts from. -/
def initClient : ClientState := ⟨0, [], [], false, false, [], 0, []⟩

/-- Go map read `client.pending[seq]`. -/
def lookupP (p : List (Nat × Nat)) (s : Nat) : Option Nat :=
  (p.find? (fun e => e.1 = s)).map (fun e => e.2)

/-- Go map `delete(client.pending, seq)`. -/
def eraseP (p : List (Nat × Nat)) (s : Nat) : List (Nat × Nat) :=
  p.filter (fun e => e.1 ≠ s)

/-- In-place mutation of the `Call` object with index `i`. -/
def updateCall (cs : List Call) (i : Nat) (f : Call → Call) : List Call :=
  cs.set i (f (cs.getD i dummyCall))

/-- Go map assignment `client.pending[seq] = call`: overwrites any
existing entry at that key. -/
def insertP (p : List (Nat × Nat)) (s cid : Nat) : List (Nat × Nat) :=
  (s, cid) :: eraseP p s

/-- Registration half of `Client.send` on a running engine (lines
99–111 plus the `client.writeRequest()` attempt): under `mutex`, read
`seq := client.seq` and, for a reply-expecting call, `client.seq++`
(a Go `uint64`, so the increment wraps modulo `2^64`) and
`client.pending[seq] = call`; the marshal and stream write then happen
outside `mutex` (still under `reqMutex`), so receive-loop and `Close`
steps can interleave between this and `sendWriteFail`.  The new `Call`
is appended to `calls`; its index is the pre-state's `calls.length`. -/
def sendRegister (hasReply : Bool) (st : ClientState) : ClientState :=
  let callId := st.calls.length
  let st1 :=
    if hasReply then
      {st with seq := (st.seq + 1) % 2 ^ 64,
               pending := insertP st.pending st.seq callId,
               calls := st.calls ++ [(⟨hasReply, none, none, 0, some st.seq⟩ : Call)]}
    else
      {st with calls := st.calls ++ [(⟨hasReply, none, none, 0, none⟩ : Call)]}
  {st1 with writeCalls := st1.writeCalls + 1}

/-- Error half of `Client.send` (lines 113–123), keyed by the sender's
local `seq` captured at registration:
`call = client.pending[seq]; delete(client.pending, seq);
if call != nil { call.Error = err; call.done() }`. -/
def sendWriteFail (e : GoErr) (seq : Nat) (st : ClientState) : ClientState :=
  match lookupP st.pending seq with
  | none => {st with pending := eraseP st.pending seq}
  | some cid =>
    {st with pending := eraseP st.pending seq,
             calls := (updateCall st.calls cid (fun c =>
               {c with error := some e, doneCount := c.doneCount + 1}))}

/-- `Client.send` (lines 87–124) run in one piece, with no receive-loop
step between registration and the write.  `writeRes` is the outcome of
`client.writeRequest()` (marshal plus stream write; the `Request`
record codec is msgp-generated code outside this repository), `none`
meaning success. -/
def send (hasReply : Bool) (writeRes : Option GoErr) (st : ClientState) :
    ClientState :=
  -- `if client.shutdown || client.closing { call.Error = ErrShutdown; call.done(); return }`
  if st.shutdown || st.closing then
    {st with calls := st.calls ++ [(⟨hasReply, some .shutdown, none, 1, none⟩ : Call)]}
  else
    let st1 := sendRegister hasReply st
    match writeRes with
    | none => st1
    | some e => sendWriteFail e st.seq st1

/-- One iteration body of the inner decode loop in `Client.input`
(lines 144–177), for a successfully decoded response `r`.  (After a
successful `UnmarshalMsg` the loop-local `err` is nil, so the two
`if err != nil` branches at lines 167 and 172 are no-ops.) -/
def recv (r : Response) (st : ClientState) : ClientState :=
  -- `if response.Kind == HandlerPush || response.Kind == HandlerResponse`
  if r.kind = .handlerPush || r.kind = .handlerResponse then
    {st with responseChan := st.responseChan ++ [r]}
  else
    -- `seq := response.Seq; call := client.pending[seq]; delete(client.pending, seq)`
    match lookupP st.pending r.seq with
    | none => {st with pending := eraseP st.pending r.seq}
    | some cid =>
      let st1 := {st with pending := eraseP st.pending r.seq}
      if r.error ≠ "" then
        {st1 with calls := (updateCall st1.calls cid (fun c =>
          {c with error := some (.serverError r.error),
                  doneCount := c.doneCount + 1}))}
      else
        {st1 with calls := (updateCall st1.calls cid (fun c =>
          {c with reply := some r.data, doneCount := c.doneCount + 1}))}

/-- `for _, call := range client.pending { call.Error = err; call.done() }`
(lines 192–195).  Entries are not removed from the map. -/
def drainCalls (p : List (Nat × Nat)) (err : Option GoErr) (cs : List Call) :
    List Call :=
  p.foldl (fun cs e => updateCall cs e.2
    (fun c => {c with error := err, doneCount := c.doneCount + 1})) cs

/-- The termination block of `Client.input` (lines 180–203).  The `err`
examined here is the function-level variable declared at line 127
(`var err error`).  The read at line 131 uses `:=`
(`n, err := client.codec.rw.Read(tmp)`), which declares a new,
loop-body-scoped `err` shadowing the outer one, and the decode at line
139 assigns that inner variable too; the outer `err` is never assigned.
So whenever the loop exits, the outer `err` is still nil: the
`err == io.EOF` classification at lines 185–191 never fires, and every
pending call is drained with a nil error. -/
def terminate (st : ClientState) : ClientState :=
  -- `client.shutdown = true; closing := client.closing`
  let st1 := {st with shutdown := true}
  let closing := st1.closing
  let err : Option GoErr := none
  let err' := if err = some .eof then
      (if closing then some GoErr.shutdown else some .unexpectedEOF)
    else err
  {st1 with calls := drainCalls st1.pending err' st1.calls}

/-- `Client.Close` (lines 250–259): idempotence guard on `closing`,
then close the underlying stream.  Returns the new state and the
returned error. -/
def Close (st : ClientState) : ClientState × Option GoErr :=
  if st.closing then (st, some .shutdown)
  else ({st with closing := true}, none)

/-- The operations concurrent callers and the receive loop can apply to
one engine, each a single lock-protected atomic region. -/
inductive Event where
  | send (hasReply : Bool) (writeRes : Option GoErr)
  | recv (r : Response)
  | terminate
  | close
  deriving DecidableEq, Repr

def step (st : ClientState) (e : Event) : ClientState :=
  match e with
  | .send h w => send h w st
  | .recv r => recv r st
  | .terminate => terminate st
  | .close => (Close st).1

def run (t : List Event) : ClientState := t.foldl step initClient

/-- The receive loop is one goroutine that runs `recv` steps and at most
one final `terminate`; once it has terminated no further loop events can
occur.  `term` records whether termination has already happened. -/
def ValidFrom : List Event → Bool → Bool
  | [], _ => true
  | e :: t, term =>
    match e with
    | .recv _ => !term && ValidFrom t term
    | .terminate => !term && ValidFrom t true
    | _ => ValidFrom t term

def ValidTrace (t : List Event) : Bool := ValidFrom t false

/-- A stream read result in `Client.input`'s outer loop: either a chunk
of bytes (a successful `Read`) or a read error such as `io.EOF`. -/
inductive ReadEvent where
  | chunk (bs : List Nat)
  | fail (e : GoErr)
  deriving DecidableEq, Repr

/-- The inner decode loop of `Client.input` (lines 137–178): repeatedly
decode one response from `codec.buf`, storing the decoder's remainder
back into `buf` before processing the response; a decode error (in
particular an incomplete frame) only breaks this inner loop.  `decode`
abstracts `Response.UnmarshalMsg` (msgp-generated, outside this
repository): it returns the record and the remaining buffer, or `none`
on error (msgp hands the buffer back unchanged on `ErrShortBytes`).
`fuel` bounds the iterations; any decoder that consumes at least one
byte per record exhausts a buffer of `n` bytes within `n + 1` steps. -/
def innerLoop (decode : List Nat → Option (Response × List Nat)) :
    Nat → ClientState → ClientState
  | 0, st => st
  | fuel + 1, st =>
    match decode st.buf with
    | none => st
    | some (r, restBuf) => innerLoop decode fuel (recv r {st with buf := restBuf})

/-- The outer loop of `Client.input` (lines 130–179) over a schedule of
stream read results, followed by the drain when a read fails.  Returns
the final state and whether the loop terminated; with the schedule
exhausted, the loop is still blocked in `Read`.  On a read error the
error value is printed and — because of the shadowing described at
`terminate` — otherwise discarded. -/
def inputRun (decode : List Nat → Option (Response × List Nat)) :
    List ReadEvent → ClientState → ClientState × Bool
  | [], st => (st, false)
  | .fail _ :: _, st => (terminate st, true)
  | .chunk bs :: restReads, st =>
    let st1 := {st with buf := st.buf ++ bs}
    inputRun decode restReads (innerLoop decode (st1.buf.length + 1) st1)

/-- The invariant of one engine's core state: `sq` the next sequence
number, `p` the pending table, `cs` the calls created so far, `sh` the
shutdown flag. -/
structure InvC (sq : Nat) (p : List (Nat × Nat)) (cs : List Call)
    (sh : Bool) : Prop where
  pend : ∀ e ∈ p, e.1 < sq ∧ e.2 < cs.length ∧
    (cs.getD e.2 dummyCall).hasReply = true ∧
    (cs.getD e.2 dummyCall).seqAssigned = some e.1 ∧
    (cs.getD e.2 dummyCall).doneCount = (if sh then 1 else 0)
  keysNodup : (p.map Prod.fst).Nodup
  cidsNodup : (p.map Prod.snd).Nodup
  assignedLt : ∀ cid s, (cs.getD cid dummyCall).seqAssigned = some s →
    s < sq ∧ (cs.getD cid dummyCall).hasReply = true
  assignedInj : ∀ c1 c2 s, c1 ≠ c2 →
    (cs.getD c1 dummyCall).seqAssigned = some s →
    (cs.getD c2 dummyCall).seqAssigned = some s → False
  doneLe : ∀ cid, (cs.getD cid dummyCall).doneCount ≤ 1
  complete : sh = false → ∀ cid s, cid < cs.length →
    (cs.getD cid dummyCall).hasReply = true →
    (cs.getD cid dummyCall).seqAssigned = some s →
    (cs.getD cid dummyCall).doneCount = 0 → (s, cid) ∈ p

/-- Invariant of a full client state. -/
def Inv (st : ClientState) : Prop :=
  InvC st.seq st.pending st.calls st.shutdown


/-- Whether a stream read result is an error. -/
def isFail : ReadEvent → Bool
  | .fail _ => true
  | .chunk _ => false

/-- Number of reply-expecting `send` events in a trace: an upper bound
on how often `client.seq++` runs.  The specification treats sequence
counter wrap-around (`uint64` overflow) as unreachable in practice; the
trace theorems below assume the engine issues fewer than `2^64`
reply-expecting calls, which makes every increment wrap-free. -/
def sendCount : List Event → Nat
  | [] => 0
  | .send true _ :: t => sendCount t + 1
  | .send false _ :: t => sendCount t
  | .recv _ :: t => sendCount t
  | .terminate :: t => sendCount t
  | .close :: t => sendCount t

/-- Events that can interleave between a send's table registration and
its stream write: inner-loop `recv` steps and `Close` take only
`mutex`, which the sender has released; another `send` or the
termination drain would need `reqMutex`, which the sender still
holds. -/
def LoopOnly : List Event → Bool
  | [] => true
  | .recv _ :: t => LoopOnly t
  | .close :: t => LoopOnly t
  | _ => false

/-- Whether a loop event completes the pending call registered under
`s0`: a decoded response with that sequence number whose kind is
matched against the table rather than forwarded to `ResponseChan`. -/
def respondsTo (s0 : Nat) : Event → Bool
  | .recv r => (r.seq = s0) && !(r.kind = RespKind.handlerPush || r.kind = RespKind.handlerResponse)
  | _ => false

/-- Status of the reply-expecting call registered under sequence number
`s0` with call index `A` while its stream write is in flight: either it
is still pending (entry present, not yet completed), or the receive
loop has already completed it with a racing response and removed its
entry (and no other entry refers to it). -/
def Tracked (s0 A : Nat) (st : ClientState) : Prop :=
  (lookupP st.pending s0 = some A ∧ A < st.calls.length ∧
    (st.calls.getD A dummyCall).doneCount = 0) ∨
  ((∀ x ∈ st.pending, x.2 ≠ A) ∧ lookupP st.pending s0 = none ∧
    (st.calls.getD A dummyCall).doneCount = 1)

end rpc

namespace message

theorem and_255_eq_mod (x : Nat) : x &&& 255 = x % 256 :=
  Nat.and_pow_two_sub_one_eq_mod x 8

theorem and_127_eq_mod (x : Nat) : x &&& 127 = x % 128 :=
  Nat.and_pow_two_sub_one_eq_mod x 7

/-- Scanning the variant-length encoding of `n` (followed by anything)
from position `k` with accumulator `acc` recovers `acc + n·2^(7k)` and
consumes exactly the encoding, provided the final value fits in 64
bits. -/
theorem varintScan_encodeVarint (n : Nat) : ∀ (rest : List Nat) (k acc : Nat),
    acc + n * 2 ^ (7 * k) < 2 ^ 64 →
    varintScan (encodeVarint n ++ rest) k acc
      = (acc + n * 2 ^ (7 * k), some (k + (encodeVarint n).length)) := by
  induction n using Nat.strong_induction_on with
  | _ n ih =>
    intro rest k acc hlt
    rw [encodeVarint]
    split
    case isTrue h =>
      have hsr : n >>> 7 = n / 128 := by
        rw [Nat.shiftRight_eq_div_pow]
      rw [hsr] at h ⊢
      simp only [List.cons_append, List.length_cons, varintScan]
      have hb : ¬ (n % 128 + 128 < 128) := by omega
      rw [if_neg hb]
      have hlow : n % 128 * 2 ^ (7 * k) ≤ n * 2 ^ (7 * k) :=
        Nat.mul_le_mul_right _ (Nat.mod_le _ _)
      have hacc : (acc + (((n % 128 + 128) &&& 127) <<< (7 * k))) % 2 ^ 64
          = acc + n % 128 * 2 ^ (7 * k) := by
        have h1 : (n % 128 + 128) % 128 = n % 128 := by omega
        rw [and_127_eq_mod, Nat.shiftLeft_eq, h1]
        exact Nat.mod_eq_of_lt (lt_of_le_of_lt (Nat.add_le_add_left hlow acc) hlt)
      rw [hacc]
      have hpow : (2 : ℕ) ^ (7 * (k + 1)) = 2 ^ (7 * k) * 128 := by
        rw [Nat.mul_succ, pow_add]; norm_num
      have hsplit : n % 128 * 2 ^ (7 * k) + n / 128 * 2 ^ (7 * (k + 1))
          = n * 2 ^ (7 * k) := by
        rw [hpow]
        have h2 : n % 128 + 128 * (n / 128) = n := Nat.mod_add_div n 128
        calc n % 128 * 2 ^ (7 * k) + n / 128 * (2 ^ (7 * k) * 128)
            = (n % 128 + 128 * (n / 128)) * 2 ^ (7 * k) := by ring
          _ = n * 2 ^ (7 * k) := by rw [h2]
      simp only [List.append_eq]
      rw [ih (n / 128) (Nat.div_lt_self (by omega) (by norm_num)) rest (k + 1)
        (acc + n % 128 * 2 ^ (7 * k)) (by omega)]
      simp only [Prod.mk.injEq, Option.some.injEq]
      omega
    case isFalse h =>
      have hsr : n >>> 7 = n / 128 := by
        rw [Nat.shiftRight_eq_div_pow]
      rw [hsr] at h
      have hn : n < 128 := by omega
      simp only [List.singleton_append, List.length_singleton, varintScan]
      have hb : n % 128 < 128 := Nat.mod_lt _ (by norm_num)
      rw [if_pos hb]
      have hacc : (acc + (((n % 128) &&& 127) <<< (7 * k))) % 2 ^ 64
          = acc + n * 2 ^ (7 * k) := by
        have h1 : n % 128 % 128 = n := by omega
        rw [and_127_eq_mod, Nat.shiftLeft_eq, h1]
        exact Nat.mod_eq_of_lt hlt
      rw [hacc]

end message

namespace message

theorem drop_cons_append (a : Nat) (l1 l2 : List Nat) (j : Nat) :
    (a :: (l1 ++ l2)).drop (1 + l1.length + j) = l2.drop j := by
  have h : 1 + l1.length + j = (l1.length + j) + 1 := by ring
  rw [h, List.drop_succ_cons]
  exact List.drop_append j

theorem drop_cons_append0 (a : Nat) (l1 l2 : List Nat) :
    (a :: (l1 ++ l2)).drop (1 + l1.length) = l2 := by
  have h := drop_cons_append a l1 l2 0
  simpa using h

theorem drop_append1 (l1 l2 : List Nat) :
    (l1 ++ l2).drop (1 + l1.length) = l2.drop 1 := by
  have h : 1 + l1.length = l1.length + 1 := by ring
  rw [h]
  exact List.drop_append 1

theorem getElem?_cons_append (a : Nat) (l1 l2 : List Nat) (j : Nat) :
    (a :: (l1 ++ l2))[1 + l1.length + j]? = l2[j]? := by
  have h : 1 + l1.length + j = (l1.length + j) + 1 := by ring
  rw [h, List.getElem?_cons_succ, List.getElem?_append_right (by omega)]
  congr 1
  omega

theorem getElem?_cons_append0 (a : Nat) (l1 l2 : List Nat) :
    (a :: (l1 ++ l2))[1 + l1.length]? = l2[0]? := by
  have h := getElem?_cons_append a l1 l2 0
  simpa using h

theorem and_7_eq_mod (x : Nat) : x &&& 7 = x % 8 :=
  Nat.and_pow_two_sub_one_eq_mod x 3

theorem getElem?_append_shift (l1 l2 : List Nat) (j : Nat) :
    (l1 ++ l2)[1 + l1.length + j]? = l2[1 + j]? := by
  have h : 1 + l1.length + j = l1.length + (1 + j) := by ring
  rw [h, List.getElem?_append_right (by omega)]
  congr 1
  omega

theorem getElem?_append_shift0 (l1 l2 : List Nat) :
    (l1 ++ l2)[1 + l1.length]? = l2[1]? := by
  have h := getElem?_append_shift l1 l2 0
  simpa using h

theorem drop_append_shift (l1 l2 : List Nat) (j : Nat) :
    (l1 ++ l2).drop (1 + l1.length + j) = l2.drop (1 + j) := by
  have h : 1 + l1.length + j = l1.length + (1 + j) := by ring
  rw [h]
  exact List.drop_append (1 + j)

theorem Decode_Encode_append (routeDict : List Nat → Option Nat)
    (codeDict : Nat → Option (List Nat)) (m : Message) (rest e : List Nat)
    (hwf : WellFormed m) (hdict : DictConsistent routeDict codeDict)
    (henc : Encode routeDict m = some e)
    (hlen : 3 < e.length + rest.length) :
    Decode codeDict (e ++ rest)
      = .ok ⟨m.type, if m.type = 0 ∨ m.type = 2 then m.id else 0,
             if msgRoute m.type then m.route else [],
             m.data ++ rest,
             msgRoute m.type && (routeDict m.route).isSome⟩ := by
  obtain ⟨t, id, route, dat, comp⟩ := m
  obtain ⟨htle, h255, hresp, hid⟩ := hwf
  simp only at htle h255 hresp hid ⊢
  rw [Encode] at henc
  rw [if_neg (by simp only [invalidType, decide_eq_true_eq]; omega)] at henc
  simp only [Option.some.injEq] at henc
  subst henc
  rcases hdic : routeDict route with _ | c
  · -- uncompressed
    simp only [hdic, Option.isSome_none, Bool.false_eq_true, if_false,
      Option.getD_none] at hlen ⊢
    interval_cases t
    · -- Request, literal route
      have h255x := h255 (by decide)
      have hmod : route.length % 256 = route.length := by omega
      have hscan : ∀ Y : List Nat, varintScan (encodeVarint id ++ Y) 0 0
          = (id, some (encodeVarint id).length) := by
        intro Y
        have h := varintScan_encodeVarint id Y 0 0 (by simpa using hid)
        simpa using h
      have hflag : (0 : Nat) <<< 1 ||| 0 = 0 := by decide
      simp only [List.cons_append, List.append_assoc, hflag, hmod] at hlen ⊢
      simp +decide [List.length_cons, List.length_append] at hlen
      have hidx : ∀ r : Nat, 1 + (encodeVarint id).length + 1 + r
          = 1 + (encodeVarint id).length + (1 + r) := by
        intro r
        ring
      simp +decide [Decode, and_7_eq_mod, hscan, hmod, invalidType, msgRoute, hidx,
        getElem?_cons_append0, getElem?_cons_append, drop_cons_append,
        drop_cons_append0, drop_append1, List.take_left, List.drop_left]
      rw [if_neg (by omega), if_pos (by omega), if_pos (by omega)]
    · -- Notify, literal route
      have h255x := h255 (by decide)
      have hmod : route.length % 256 = route.length := by omega
      have hflag : (1 : Nat) <<< 1 ||| 0 = 2 := by decide
      simp only [List.cons_append, List.append_assoc, hflag, hmod] at hlen ⊢
      simp +decide [List.length_cons, List.length_append] at hlen
      have hidx : 2 + route.length = route.length + 1 + 1 := by ring
      simp +decide [Decode, and_7_eq_mod, hmod, invalidType, msgRoute, hidx,
        List.drop_succ_cons, List.take_left, List.drop_left]
      omega
    · -- Response
      have hr := hresp rfl
      subst hr
      have hscan : ∀ Y : List Nat, varintScan (encodeVarint id ++ Y) 0 0
          = (id, some (encodeVarint id).length) := by
        intro Y
        have h := varintScan_encodeVarint id Y 0 0 (by simpa using hid)
        simpa using h
      have hflag : (2 : Nat) <<< 1 ||| 0 = 4 := by decide
      simp only [List.cons_append, List.append_assoc, hflag] at hlen ⊢
      simp +decide [List.length_cons, List.length_append] at hlen
      simp +decide [Decode, and_7_eq_mod, hscan, invalidType, msgRoute, drop_cons_append0]
      omega
    · -- Push, literal route
      have h255x := h255 (by decide)
      have hmod : route.length % 256 = route.length := by omega
      have hflag : (3 : Nat) <<< 1 ||| 0 = 6 := by decide
      simp only [List.cons_append, List.append_assoc, hflag, hmod] at hlen ⊢
      simp +decide [List.length_cons, List.length_append] at hlen
      have hidx : 2 + route.length = route.length + 1 + 1 := by ring
      simp +decide [Decode, and_7_eq_mod, hmod, invalidType, msgRoute, hidx,
        List.drop_succ_cons, List.take_left, List.drop_left]
      omega
  · -- compressed
    obtain ⟨hcd, hc16⟩ := hdict route c hdic
    simp only [hdic, Option.isSome_some, if_true, Option.getD_some] at hlen ⊢
    have hcode : ((c >>> 8) &&& 255) * 256 + (c &&& 255) = c := by
      rw [and_255_eq_mod, and_255_eq_mod, Nat.shiftRight_eq_div_pow]
      norm_num
      omega
    interval_cases t
    · -- Request, compressed route
      have hscan : ∀ Y : List Nat, varintScan (encodeVarint id ++ Y) 0 0
          = (id, some (encodeVarint id).length) := by
        intro Y
        have h := varintScan_encodeVarint id Y 0 0 (by simpa using hid)
        simpa using h
      have hflag : (0 : Nat) <<< 1 ||| 1 = 1 := by decide
      simp only [List.cons_append, List.append_assoc, hflag] at hlen ⊢
      simp +decide [List.length_cons, List.length_append] at hlen
      simp +decide [Decode, and_7_eq_mod, hscan, invalidType, msgRoute, hcode, hcd,
        getElem?_cons_append0, getElem?_cons_append, drop_cons_append,
        getElem?_append_shift0, getElem?_append_shift, drop_append_shift]
      rw [if_neg (by omega), if_pos (by omega)]
    · -- Notify, compressed route
      have hflag : (1 : Nat) <<< 1 ||| 1 = 3 := by decide
      simp only [List.cons_append, List.append_assoc, hflag] at hlen ⊢
      simp +decide [List.length_cons, List.length_append] at hlen
      simp +decide [Decode, and_7_eq_mod, invalidType, msgRoute, hcode, hcd]
      rintro rfl rfl
      simp at hlen
    · -- Response (dictionary hit on its empty route)
      have hr := hresp rfl
      subst hr
      have hscan : ∀ Y : List Nat, varintScan (encodeVarint id ++ Y) 0 0
          = (id, some (encodeVarint id).length) := by
        intro Y
        have h := varintScan_encodeVarint id Y 0 0 (by simpa using hid)
        simpa using h
      have hflag : (2 : Nat) <<< 1 ||| 1 = 5 := by decide
      simp only [List.cons_append, List.append_assoc, hflag] at hlen ⊢
      simp +decide [List.length_cons, List.length_append] at hlen
      simp +decide [Decode, and_7_eq_mod, hscan, invalidType, msgRoute, drop_cons_append0]
      omega
    · -- Push, compressed route
      have hflag : (3 : Nat) <<< 1 ||| 1 = 7 := by decide
      simp only [List.cons_append, List.append_assoc, hflag] at hlen ⊢
      simp +decide [List.length_cons, List.length_append] at hlen
      simp +decide [Decode, and_7_eq_mod, invalidType, msgRoute, hcode, hcd]
      rintro rfl rfl
      simp at hlen

end message

namespace message

/-- Short input: `Decode` rejects any buffer of at most `msgHeadLength`
(3) bytes as an invalid message. -/
theorem Decode_short (codeDict : Nat → Option (List Nat)) (d : List Nat)
    (hd : d.length ≤ 3) : Decode codeDict d = .errInvalidMessage := by
  rw [Decode, if_pos hd]

/-- C3: the claim is false on the code.  `Decode` has no remainder
return value: decoding `Encode(m1) ++ Encode(m2)` (with
`m1 = Notify "a" [120]`, `m2 = Notify "b" []`, empty dictionary) yields
`m1`'s kind and route but a payload that has absorbed the whole second
frame, not `m1`'s payload with `Encode(m2)` as remainder. -/
theorem C3_counterexample_concat :
    Encode (fun _ => none) ⟨1, 0, [97], [120], false⟩ = some [2, 1, 97, 120] ∧
    Encode (fun _ => none) ⟨1, 0, [98], [], false⟩ = some [2, 1, 98] ∧
    Decode (fun _ => none) ([2, 1, 97, 120] ++ [2, 1, 98])
      = .ok ⟨1, 0, [97], [120, 2, 1, 98], false⟩ ∧
    [120, 2, 1, 98] ≠ [120] := by
  refine ⟨by decide, by decide, by decide, by decide⟩

/-- C3 (amended): on a successful decode, `Decode` returns no remainder
at all — it consumes the entire input, treating every byte after the
header (and route) region as the payload.  Decoding
`Encode(m) ++ rest` therefore yields `m`'s kind and route with payload
`m.data ++ rest`; in particular `Encode(m2)` appended after `Encode(m1)`
is absorbed into `m1`'s payload.  An input of at most 3 bytes is
rejected as an invalid message, not returned unchanged. -/
theorem C3_decode_consumes_buffer_no_remainder
    (routeDict : List Nat → Option Nat) (codeDict : Nat → Option (List Nat))
    (m : Message) (rest e : List Nat)
    (hwf : WellFormed m) (hdict : DictConsistent routeDict codeDict)
    (henc : Encode routeDict m = some e)
    (hlen : 3 < e.length + rest.length) :
    Decode codeDict (e ++ rest)
      = .ok ⟨m.type, if m.type = 0 ∨ m.type = 2 then m.id else 0,
             if msgRoute m.type then m.route else [],
             m.data ++ rest,
             msgRoute m.type && (routeDict m.route).isSome⟩ ∧
    (∀ d : List Nat, d.length ≤ 3 → Decode codeDict d = .errInvalidMessage) :=
  ⟨Decode_Encode_append routeDict codeDict m rest e hwf hdict henc hlen,
   fun d hd => Decode_short codeDict d hd⟩

/-- Witness for C3 (amended) at `m1 = Notify "a" [120]`,
`rest = Encode(m2) = [2, 1, 98]`, empty dictionaries. -/
theorem C3_witness :
    WellFormed ⟨1, 0, [97], [120], false⟩ ∧
    DictConsistent (fun _ => none) (fun _ => none) ∧
    Encode (fun _ => none) ⟨1, 0, [97], [120], false⟩ = some [2, 1, 97, 120] ∧
    3 < ([2, 1, 97, 120] : List Nat).length + ([2, 1, 98] : List Nat).length ∧
    (Decode (fun _ => none) ([2, 1, 97, 120] ++ [2, 1, 98])
      = .ok ⟨1, if (1 : Nat) = 0 ∨ (1 : Nat) = 2 then 0 else 0,
             if msgRoute 1 then [97] else [],
             [120] ++ [2, 1, 98],
             msgRoute 1 && (Option.isSome (α := Nat) none)⟩ ∧
     (∀ d : List Nat, d.length ≤ 3 → Decode (fun _ => none) d = .errInvalidMessage)) :=
  ⟨by decide, fun r c h => by exact absurd h (by simp), by decide, by decide,
   C3_decode_consumes_buffer_no_remainder (fun _ => none) (fun _ => none)
     ⟨1, 0, [97], [120], false⟩ [2, 1, 98] [2, 1, 97, 120]
     (by decide) (fun r c h => by exact absurd h (by simp)) (by decide) (by decide)⟩

end message

namespace message

/-- C4: the claim is false on the code for messages whose whole frame is
at most 3 bytes: `Notify` with route `"a"` and empty payload is
well-formed, but its 3-byte frame is rejected by `Decode`'s
minimum-length check instead of being decoded back. -/
theorem C4_counterexample_three_byte_frame :
    WellFormed ⟨1, 0, [97], [], false⟩ ∧
    DictConsistent (fun _ => none) (fun _ => none) ∧
    Encode (fun _ => none) ⟨1, 0, [97], [], false⟩ = some [2, 1, 97] ∧
    Decode (fun _ => none) [2, 1, 97] = .errInvalidMessage :=
  ⟨by decide, fun r c h => by exact absurd h (by simp), by decide, by decide⟩

/-- C4 (amended): for every well-formed message whose encoded frame is
longer than 3 bytes, `Decode (Encode m)` succeeds and reproduces `m`'s
kind, its route (whether or not it was compressed via the dictionary),
its request id when the kind is Request or Response, and its payload
bytes exactly. -/
theorem C4_roundtrip_amended
    (routeDict : List Nat → Option Nat) (codeDict : Nat → Option (List Nat))
    (m : Message) (e : List Nat)
    (hwf : WellFormed m) (hdict : DictConsistent routeDict codeDict)
    (henc : Encode routeDict m = some e) (hlen : 3 < e.length) :
    ∃ m', Decode codeDict e = .ok m' ∧ m'.type = m.type ∧
      m'.route = m.route ∧ (m.type = 0 ∨ m.type = 2 → m'.id = m.id) ∧
      m'.data = m.data := by
  have h := Decode_Encode_append routeDict codeDict m [] e hwf hdict henc
    (by simpa using hlen)
  rw [List.append_nil] at h
  refine ⟨_, h, rfl, ?_, ?_, by simp⟩
  · by_cases hr : msgRoute m.type = true
    · simp [hr]
    · have h2 : m.type = 2 := by
        have := hwf.1
        simp only [msgRoute] at hr
        interval_cases h : m.type <;> simp_all
      simp [hr, hwf.2.2.1 h2]
  · intro ht
    have : (m.type = 0 || m.type = 2) = true := by
      rcases ht with h | h <;> simp [h]
    simp [decide_eq_true_eq] at this ⊢
    rcases this with h | h <;> simp [h]

/-- Witness for C4 (amended): the spec scenario — `Notify` with route
`"room.join"` in the dictionary under code 7 and payload `"abc"`
encodes to `[0x03, 0x00, 0x07] ++ "abc"` and decodes back. -/
theorem C4_witness :
    WellFormed ⟨1, 0, [114, 111, 111, 109, 46, 106, 111, 105, 110], [97, 98, 99], false⟩ ∧
    DictConsistent
      (fun r => if r = [114, 111, 111, 109, 46, 106, 111, 105, 110] then some 7 else none)
      (fun c => if c = 7 then some [114, 111, 111, 109, 46, 106, 111, 105, 110] else none) ∧
    Encode (fun r => if r = [114, 111, 111, 109, 46, 106, 111, 105, 110] then some 7 else none)
      ⟨1, 0, [114, 111, 111, 109, 46, 106, 111, 105, 110], [97, 98, 99], false⟩
      = some [3, 0, 7, 97, 98, 99] ∧
    (∃ m', Decode (fun c => if c = 7 then some [114, 111, 111, 109, 46, 106, 111, 105, 110] else none)
        [3, 0, 7, 97, 98, 99] = .ok m' ∧
      m'.type = 1 ∧ m'.route = [114, 111, 111, 109, 46, 106, 111, 105, 110] ∧
      ((1 : Nat) = 0 ∨ (1 : Nat) = 2 → m'.id = 0) ∧ m'.data = [97, 98, 99]) := by
  have hdict : DictConsistent
      (fun r => if r = [114, 111, 111, 109, 46, 106, 111, 105, 110] then some 7 else none)
      (fun c => if c = 7 then some [114, 111, 111, 109, 46, 106, 111, 105, 110] else none) := by
    intro r c h
    dsimp only [] at h ⊢
    by_cases hr : r = [114, 111, 111, 109, 46, 106, 111, 105, 110]
    · subst hr
      rw [if_pos rfl] at h
      injection h with h
      subst h
      exact ⟨by rw [if_pos rfl], by norm_num⟩
    · rw [if_neg hr] at h
      exact absurd h (by simp)
  refine ⟨by decide, hdict, by decide, ?_⟩
  exact C4_roundtrip_amended _ _
    ⟨1, 0, [114, 111, 111, 109, 46, 106, 111, 105, 110], [97, 98, 99], false⟩
    [3, 0, 7, 97, 98, 99] (by decide) hdict (by decide) (by decide)

end message

namespace message

/-- C5: the claim is false on the code.  For the well-formed message
`Notify "abc" "xyz"` the 4-byte strict prefix of its 8-byte frame makes
`Decode` slice past the end of the buffer (a Go runtime panic), instead
of reporting that more data is needed. -/
theorem C5_counterexample_panic :
    WellFormed ⟨1, 0, [97, 98, 99], [120, 121, 122], false⟩ ∧
    Encode (fun _ => none) ⟨1, 0, [97, 98, 99], [120, 121, 122], false⟩
      = some [2, 3, 97, 98, 99, 120, 121, 122] ∧
    [2, 3, 97, 98] = [2, 3, 97, 98, 99, 120, 121, 122].take 4 ∧
    Decode (fun _ => none) [2, 3, 97, 98] = .panic :=
  ⟨by decide, by decide, by decide, by decide⟩

/-- C5 (amended): `Decode` does not detect truncation and has no
"more data needed" outcome.  A buffer of at most 3 bytes — in particular
every such strict prefix of an encoded frame — is rejected as an invalid
message; a longer strict prefix can make `Decode` read past the end of
the buffer (the 4-byte prefix of `Encode(Notify "abc" "xyz")` panics on
the truncated route bytes), and a prefix that truncates only the payload
decodes successfully to a corrupted message carrying the truncated
payload (the 6-byte prefix of the same frame yields payload `[120]`
instead of `[120, 121, 122]`). -/
theorem C5_truncation_amended (codeDict : Nat → Option (List Nat))
    (d : List Nat) (hd : d.length ≤ 3) :
    Decode codeDict d = .errInvalidMessage ∧
    Encode (fun _ => none) ⟨1, 0, [97, 98, 99], [120, 121, 122], false⟩
      = some [2, 3, 97, 98, 99, 120, 121, 122] ∧
    Decode (fun _ => none) ([2, 3, 97, 98, 99, 120, 121, 122].take 4) = .panic ∧
    Decode (fun _ => none) ([2, 3, 97, 98, 99, 120, 121, 122].take 6)
      = .ok ⟨1, 0, [97, 98, 99], [120], false⟩ :=
  ⟨Decode_short codeDict d hd, by decide, by decide, by decide⟩

/-- Witness for C5 (amended) at the empty buffer. -/
theorem C5_witness :
    ([] : List Nat).length ≤ 3 ∧
    (Decode (fun _ => none) [] = .errInvalidMessage ∧
     Encode (fun _ => none) ⟨1, 0, [97, 98, 99], [120, 121, 122], false⟩
       = some [2, 3, 97, 98, 99, 120, 121, 122] ∧
     Decode (fun _ => none) ([2, 3, 97, 98, 99, 120, 121, 122].take 4) = .panic ∧
     Decode (fun _ => none) ([2, 3, 97, 98, 99, 120, 121, 122].take 6)
       = .ok ⟨1, 0, [97, 98, 99], [120], false⟩) :=
  ⟨by decide, C5_truncation_amended (fun _ => none) [] (by decide)⟩

end message

namespace cluster

/-- C10: for every input, `Manager.RegisterServer` and
`Manager.UpdateServer` return a non-nil error and never invoke the
underlying `Register`/`UpdateServer` cluster operation, because the
unmarshal target `newServerInfo` is a nil `*ServerConfig`: valid JSON is
rejected with `InvalidUnmarshalError`, and malformed input already fails
the syntax check. -/
theorem C10_register_update_always_error (valid : List Nat → Bool)
    (data : List Nat) :
    (RegisterServer valid data).err ≠ none ∧
    (RegisterServer valid data).invoked = false ∧
    (UpdateServer valid data).err ≠ none ∧
    (UpdateServer valid data).invoked = false := by
  unfold RegisterServer UpdateServer jsonUnmarshal
  by_cases h : valid data = false <;> simp [h]

end cluster

namespace rpc

theorem getDc_append_lt (l1 l2 : List Call) (i : Nat) (h : i < l1.length) :
    (l1 ++ l2).getD i dummyCall = l1.getD i dummyCall := by
  rw [List.getD_eq_getElem?_getD, List.getElem?_append, if_pos h,
    ← List.getD_eq_getElem?_getD]

theorem getDc_append_self (l1 : List Call) (c : Call) :
    (l1 ++ [c]).getD l1.length dummyCall = c := by
  rw [List.getD_eq_getElem?_getD, List.getElem?_append, if_neg (by omega)]
  simp

theorem getDc_oob (l : List Call) (i : Nat) (h : l.length ≤ i) :
    l.getD i dummyCall = dummyCall := by
  rw [List.getD_eq_getElem?_getD, List.getElem?_eq_none (by omega)]
  rfl

theorem updateCall_length (cs : List Call) (i : Nat) (f : Call → Call) :
    (updateCall cs i f).length = cs.length := by
  simp [updateCall]

theorem updateCall_getD_same (cs : List Call) (i : Nat) (f : Call → Call)
    (h : i < cs.length) :
    (updateCall cs i f).getD i dummyCall = f (cs.getD i dummyCall) := by
  unfold updateCall
  rw [List.getD_eq_getElem?_getD, List.getElem?_set_self]
  · rfl
  · exact h

theorem updateCall_getD_other (cs : List Call) (i j : Nat) (f : Call → Call)
    (h : i ≠ j) :
    (updateCall cs i f).getD j dummyCall = cs.getD j dummyCall := by
  unfold updateCall
  rw [List.getD_eq_getElem?_getD, List.getElem?_set_ne h,
    ← List.getD_eq_getElem?_getD]

theorem lookupP_mem {p : List (Nat × Nat)} {s cid : Nat}
    (h : lookupP p s = some cid) : (s, cid) ∈ p := by
  unfold lookupP at h
  cases hf : p.find? (fun e => e.1 = s) with
  | none => rw [hf] at h; simp at h
  | some e =>
    rw [hf] at h
    simp only [Option.map_some', Option.some.injEq] at h
    have h1 := List.find?_some hf
    have h2 := List.mem_of_find?_eq_some hf
    simp only [decide_eq_true_eq] at h1
    have : (s, cid) = e := by
      obtain ⟨e1, e2⟩ := e
      simp only at h1 h
      simp [h1, h]
    rw [this]
    exact h2

theorem lookupP_cons_self (s cid : Nat) (p : List (Nat × Nat)) :
    lookupP ((s, cid) :: p) s = some cid := by
  simp [lookupP, List.find?_cons]

theorem lookupP_none_of_keys_ne {p : List (Nat × Nat)} {s : Nat}
    (h : ∀ e ∈ p, e.1 ≠ s) : lookupP p s = none := by
  unfold lookupP
  rw [List.find?_eq_none.mpr]
  · rfl
  · intro a ha
    simp only [decide_eq_true_eq]
    exact h a ha

theorem eraseP_of_keys_ne {p : List (Nat × Nat)} {s : Nat}
    (h : ∀ e ∈ p, e.1 ≠ s) : eraseP p s = p := by
  unfold eraseP
  rw [List.filter_eq_self.mpr]
  intro a ha
  simp only [decide_eq_true_eq]
  exact h a ha

theorem mem_eraseP {p : List (Nat × Nat)} {s : Nat} {x : Nat × Nat} :
    x ∈ eraseP p s ↔ x ∈ p ∧ x.1 ≠ s := by
  simp [eraseP, List.mem_filter]

theorem eraseP_sublist (p : List (Nat × Nat)) (s : Nat) :
    (eraseP p s).Sublist p := List.filter_sublist p

theorem lookupP_eraseP_self (p : List (Nat × Nat)) (s : Nat) :
    lookupP (eraseP p s) s = none :=
  lookupP_none_of_keys_ne (fun _ he => (mem_eraseP.mp he).2)

theorem lookupP_of_mem {p : List (Nat × Nat)} {s cid : Nat}
    (hnd : (p.map Prod.fst).Nodup) (h : (s, cid) ∈ p) :
    lookupP p s = some cid := by
  induction p with
  | nil => simp at h
  | cons a p ih =>
    obtain ⟨a1, a2⟩ := a
    simp only [List.map_cons, List.nodup_cons] at hnd
    rcases List.mem_cons.mp h with heq | hmem
    · have h1 : s = a1 := by simpa using congrArg Prod.fst heq
      have h2 : cid = a2 := by simpa using congrArg Prod.snd heq
      subst h1
      subst h2
      exact lookupP_cons_self s cid p
    · have hne : ¬ a1 = s := by
        intro he
        subst he
        exact hnd.1 (by simpa using List.mem_map_of_mem Prod.fst hmem)
      unfold lookupP
      rw [List.find?_cons_of_neg]
      · exact ih hnd.2 hmem
      · simpa using hne

theorem drainCalls_nil (err : Option GoErr) (cs : List Call) :
    drainCalls [] err cs = cs := rfl

theorem drainCalls_cons (a : Nat × Nat) (p : List (Nat × Nat))
    (err : Option GoErr) (cs : List Call) :
    drainCalls (a :: p) err cs
      = drainCalls p err (updateCall cs a.2
          (fun c => {c with error := err, doneCount := c.doneCount + 1})) := rfl

theorem drainCalls_length (p : List (Nat × Nat)) (err : Option GoErr)
    (cs : List Call) : (drainCalls p err cs).length = cs.length := by
  induction p generalizing cs with
  | nil => rfl
  | cons a p ih => rw [drainCalls_cons, ih, updateCall_length]

theorem drainCalls_getD_not_mem (p : List (Nat × Nat)) (err : Option GoErr)
    (cs : List Call) (cid : Nat) (h : ∀ s, (s, cid) ∉ p) :
    (drainCalls p err cs).getD cid dummyCall = cs.getD cid dummyCall := by
  induction p generalizing cs with
  | nil => rfl
  | cons a p ih =>
    obtain ⟨a1, a2⟩ := a
    rw [drainCalls_cons]
    have hne : a2 ≠ cid := by
      intro he
      subst he
      exact h a1 (List.mem_cons_self _ _)
    rw [ih _ (fun s hs => h s (List.mem_cons_of_mem _ hs)),
      updateCall_getD_other _ _ _ _ hne]

theorem drainCalls_getD_mem (p : List (Nat × Nat)) (err : Option GoErr)
    (cs : List Call) (s cid : Nat)
    (hnd : (p.map Prod.snd).Nodup) (hm : (s, cid) ∈ p) (hlt : cid < cs.length) :
    (drainCalls p err cs).getD cid dummyCall
      = {cs.getD cid dummyCall with
          error := err, doneCount := (cs.getD cid dummyCall).doneCount + 1} := by
  induction p generalizing cs with
  | nil => simp at hm
  | cons a p ih =>
    obtain ⟨a1, a2⟩ := a
    simp only [List.map_cons, List.nodup_cons] at hnd
    rw [drainCalls_cons]
    rcases List.mem_cons.mp hm with heq | hmem
    · have h2 : cid = a2 := by simpa using congrArg Prod.snd heq
      subst h2
      rw [drainCalls_getD_not_mem _ _ _ _
        (fun s' hs' => hnd.1 (by simpa using List.mem_map_of_mem Prod.snd hs'))]
      rw [updateCall_getD_same _ _ _ hlt]
    · have hne : a2 ≠ cid := by
        intro he
        subst he
        exact hnd.1 (by simpa using List.mem_map_of_mem Prod.snd hmem)
      have hlt2 : cid < (updateCall cs a2 (fun c =>
          {c with error := err, doneCount := c.doneCount + 1})).length := by
        rw [updateCall_length]
        exact hlt
      rw [ih (updateCall cs a2 (fun c =>
            {c with error := err, doneCount := c.doneCount + 1})) hnd.2 hmem hlt2,
        updateCall_getD_other _ _ _ _ hne]

theorem getDc_append_cases (l1 : List Call) (c : Call) (i : Nat) :
    (l1 ++ [c]).getD i dummyCall
      = if i < l1.length then l1.getD i dummyCall
        else if i = l1.length then c else dummyCall := by
  split
  case isTrue h => exact getDc_append_lt l1 [c] i h
  case isFalse h =>
    split
    case isTrue h2 =>
      subst h2
      exact getDc_append_self l1 c
    case isFalse h2 =>
      apply getDc_oob
      simp only [List.length_append, List.length_singleton]
      omega

theorem key_unique {p : List (Nat × Nat)} {s a b : Nat}
    (hnd : (p.map Prod.fst).Nodup) (ha : (s, a) ∈ p) (hb : (s, b) ∈ p) :
    a = b := by
  induction p with
  | nil => simp at ha
  | cons x p ih =>
    obtain ⟨x1, x2⟩ := x
    simp only [List.map_cons, List.nodup_cons] at hnd
    rcases List.mem_cons.mp ha with ha1 | ha1 <;>
      rcases List.mem_cons.mp hb with hb1 | hb1
    · have h1 : a = x2 := by simpa using congrArg Prod.snd ha1
      have h2 : b = x2 := by simpa using congrArg Prod.snd hb1
      rw [h1, h2]
    · have h1 : x1 = s := by simpa using (congrArg Prod.fst ha1).symm
      subst h1
      exact absurd (by simpa using List.mem_map_of_mem Prod.fst hb1) hnd.1
    · have h1 : x1 = s := by simpa using (congrArg Prod.fst hb1).symm
      subst h1
      exact absurd (by simpa using List.mem_map_of_mem Prod.fst ha1) hnd.1
    · exact ih hnd.2 ha1 hb1

theorem lookupP_none_keys {p : List (Nat × Nat)} {s : Nat}
    (h : lookupP p s = none) : ∀ e ∈ p, e.1 ≠ s := by
  unfold lookupP at h
  intro e he
  have := List.find?_eq_none.mp (by
    cases hf : p.find? (fun e => e.1 = s)
    · rfl
    · rw [hf] at h; simp at h) e he
  simpa using this


theorem Inv_init : Inv initClient := by
  constructor <;> simp [initClient, dummyCall]

/-- Appending a call that is not registered anywhere (fire-and-forget,
or a call rejected by the shutdown guard) preserves the invariant. -/
theorem InvC_append {sq : Nat} {p : List (Nat × Nat)} {cs : List Call}
    {sh : Bool} (c : Call) (h : InvC sq p cs sh)
    (hc1 : c.seqAssigned = none) (hc2 : c.doneCount ≤ 1) :
    InvC sq p (cs ++ [c]) sh := by
  have hcase := getDc_append_cases cs c
  constructor
  · intro e he
    obtain ⟨h1, h2, h3, h4, h5⟩ := h.pend e he
    rw [hcase, if_pos h2]
    exact ⟨h1, by simp only [List.length_append, List.length_singleton]; omega,
      h3, h4, h5⟩
  · exact h.keysNodup
  · exact h.cidsNodup
  · intro cid s hs
    by_cases hz : cid < cs.length
    · rw [hcase, if_pos hz] at hs ⊢
      exact h.assignedLt cid s hs
    · by_cases hz2 : cid = cs.length
      · rw [hcase, if_neg hz, if_pos hz2, hc1] at hs
        simp at hs
      · rw [hcase, if_neg hz, if_neg hz2] at hs
        simp [dummyCall] at hs
  · intro c1 c2 s hne h1 h2
    have hone : ∀ cid, ((cs ++ [c]).getD cid dummyCall).seqAssigned = some s →
        cid < cs.length ∧ (cs.getD cid dummyCall).seqAssigned = some s := by
      intro cid hs
      by_cases hz : cid < cs.length
      · rw [hcase, if_pos hz] at hs
        exact ⟨hz, hs⟩
      · by_cases hz2 : cid = cs.length
        · rw [hcase, if_neg hz, if_pos hz2, hc1] at hs
          simp at hs
        · rw [hcase, if_neg hz, if_neg hz2] at hs
          simp [dummyCall] at hs
    exact h.assignedInj c1 c2 s hne (hone c1 h1).2 (hone c2 h2).2
  · intro cid
    by_cases hz : cid < cs.length
    · rw [hcase, if_pos hz]
      exact h.doneLe cid
    · by_cases hz2 : cid = cs.length
      · rw [hcase, if_neg hz, if_pos hz2]
        exact hc2
      · rw [hcase, if_neg hz, if_neg hz2]
        simp [dummyCall]
  · intro hsh cid s hlt hr ha hd
    by_cases hz : cid < cs.length
    · rw [hcase, if_pos hz] at hr ha hd
      exact h.complete hsh cid s hz hr ha hd
    · by_cases hz2 : cid = cs.length
      · rw [hcase, if_neg hz, if_pos hz2, hc1] at ha
        simp at ha
      · rw [hcase, if_neg hz, if_neg hz2] at hr
        simp [dummyCall] at hr

/-- Registering a reply-expecting call: assign the current sequence
number, insert at the head of the table, append the new call. -/
theorem InvC_insert {sq : Nat} {p : List (Nat × Nat)} {cs : List Call}
    (h : InvC sq p cs false) :
    InvC (sq + 1) ((sq, cs.length) :: p)
      (cs ++ [(⟨true, none, none, 0, some sq⟩ : Call)]) false := by
  have hcase := getDc_append_cases cs ⟨true, none, none, 0, some sq⟩
  have hself := getDc_append_self cs ⟨true, none, none, 0, some sq⟩
  constructor
  · intro e he
    rcases List.mem_cons.mp he with heq | hmem
    · subst heq
      rw [hself]
      refine ⟨by omega, by simp, rfl, rfl, rfl⟩
    · obtain ⟨h1, h2, h3, h4, h5⟩ := h.pend e hmem
      rw [hcase, if_pos h2]
      exact ⟨by omega, by simp only [List.length_append, List.length_singleton]; omega,
        h3, h4, h5⟩
  · rw [List.map_cons, List.nodup_cons]
    refine ⟨?_, h.keysNodup⟩
    intro hmm
    obtain ⟨e, he, hee⟩ := List.mem_map.mp hmm
    have := (h.pend e he).1
    omega
  · rw [List.map_cons, List.nodup_cons]
    refine ⟨?_, h.cidsNodup⟩
    intro hmm
    obtain ⟨e, he, hee⟩ := List.mem_map.mp hmm
    have := (h.pend e he).2.1
    omega
  · intro cid s hs
    by_cases hz : cid < cs.length
    · rw [hcase, if_pos hz] at hs ⊢
      have := h.assignedLt cid s hs
      exact ⟨by omega, this.2⟩
    · by_cases hz2 : cid = cs.length
      · subst hz2
        rw [hself] at hs ⊢
        simp only [Option.some.injEq] at hs
        exact ⟨by omega, rfl⟩
      · rw [hcase, if_neg hz, if_neg hz2] at hs
        simp [dummyCall] at hs
  · intro c1 c2 s hne h1 h2
    have hone : ∀ cid,
        ((cs ++ [(⟨true, none, none, 0, some sq⟩ : Call)]).getD cid
          dummyCall).seqAssigned = some s →
        (cid < cs.length ∧ (cs.getD cid dummyCall).seqAssigned = some s) ∨
        (cid = cs.length ∧ s = sq) := by
      intro cid hs
      by_cases hz : cid < cs.length
      · rw [hcase, if_pos hz] at hs
        exact Or.inl ⟨hz, hs⟩
      · by_cases hz2 : cid = cs.length
        · subst hz2
          rw [hself] at hs
          simp only [Option.some.injEq] at hs
          exact Or.inr ⟨rfl, hs.symm⟩
        · rw [hcase, if_neg hz, if_neg hz2] at hs
          simp [dummyCall] at hs
    rcases hone c1 h1 with ⟨hz1, ho1⟩ | ⟨hz1, ho1⟩ <;>
      rcases hone c2 h2 with ⟨hz2, ho2⟩ | ⟨hz2, ho2⟩
    · exact h.assignedInj c1 c2 s hne ho1 ho2
    · have := (h.assignedLt c1 s ho1).1
      omega
    · have := (h.assignedLt c2 s ho2).1
      omega
    · exact hne (hz1.trans hz2.symm)
  · intro cid
    by_cases hz : cid < cs.length
    · rw [hcase, if_pos hz]
      exact h.doneLe cid
    · by_cases hz2 : cid = cs.length
      · subst hz2
        rw [hself]
        simp
      · rw [hcase, if_neg hz, if_neg hz2]
        simp [dummyCall]
  · intro hsh cid s hlt hr ha hd
    by_cases hz : cid < cs.length
    · rw [hcase, if_pos hz] at hr ha hd
      exact List.mem_cons_of_mem _ (h.complete rfl cid s hz hr ha hd)
    · by_cases hz2 : cid = cs.length
      · subst hz2
        rw [hself] at ha
        simp only [Option.some.injEq] at ha
        rw [← ha]
        exact List.mem_cons_self _ _
      · rw [hcase, if_neg hz, if_neg hz2] at hr
        simp [dummyCall] at hr

/-- Completing the pending call registered under `s`: remove its entry
and apply a mutation `f` that signals `done()` once while leaving
`hasReply` and the assigned sequence number unchanged (the
response-received and write-failure completion paths). -/
theorem InvC_recv_complete {sq : Nat} {p : List (Nat × Nat)} {cs : List Call}
    {s cid : Nat} (h : InvC sq p cs false) (hm : (s, cid) ∈ p)
    (f : Call → Call)
    (hf : ∀ c, (f c).hasReply = c.hasReply ∧ (f c).seqAssigned = c.seqAssigned ∧
      (f c).doneCount = c.doneCount + 1) :
    InvC sq (eraseP p s) (updateCall cs cid f) false := by
  obtain ⟨hs1, hs2, hs3, hs4, hs5⟩ := h.pend (s, cid) hm
  rw [if_neg (by simp)] at hs5
  have hother : ∀ cid', cid' ≠ cid →
      (updateCall cs cid f).getD cid' dummyCall = cs.getD cid' dummyCall := by
    intro cid' hne
    exact updateCall_getD_other cs cid cid' f (fun he => hne he.symm)
  have hsame : (updateCall cs cid f).getD cid dummyCall
      = f (cs.getD cid dummyCall) := updateCall_getD_same cs cid f hs2
  constructor
  · intro e he
    obtain ⟨hep, hene⟩ := mem_eraseP.mp he
    obtain ⟨h1, h2, h3, h4, h5⟩ := h.pend e hep
    have hne : e.2 ≠ cid := by
      intro heq
      rw [heq] at h4
      rw [hs4] at h4
      simp only [Option.some.injEq] at h4
      exact hene h4.symm
    rw [hother e.2 hne]
    rw [updateCall_length]
    exact ⟨h1, h2, h3, h4, h5⟩
  · exact h.keysNodup.sublist (List.Sublist.map _ (eraseP_sublist p s))
  · exact h.cidsNodup.sublist (List.Sublist.map _ (eraseP_sublist p s))
  · intro cid' s' hs'
    by_cases hne : cid' = cid
    · subst hne
      rw [hsame] at hs' ⊢
      rw [(hf _).2.1] at hs'
      have := h.assignedLt cid' s' hs'
      exact ⟨this.1, by rw [(hf _).1]; exact this.2⟩
    · rw [hother cid' hne] at hs' ⊢
      exact h.assignedLt cid' s' hs'
  · intro c1 c2 s' hne h1 h2
    have hone : ∀ c', ((updateCall cs cid f).getD c' dummyCall).seqAssigned
        = (cs.getD c' dummyCall).seqAssigned := by
      intro c'
      by_cases hne' : c' = cid
      · subst hne'
        rw [hsame, (hf _).2.1]
      · rw [hother c' hne']
    rw [hone] at h1 h2
    exact h.assignedInj c1 c2 s' hne h1 h2
  · intro cid'
    by_cases hne : cid' = cid
    · subst hne
      rw [hsame, (hf _).2.2, hs5]
    · rw [hother cid' hne]
      exact h.doneLe cid'
  · intro hsh cid' s' hlt hr ha hd
    by_cases hne : cid' = cid
    · subst hne
      rw [hsame, (hf _).2.2] at hd
      omega
    · rw [hother cid' hne] at hr ha hd
      rw [updateCall_length] at hlt
      have hmem := h.complete rfl cid' s' hlt hr ha hd
      refine mem_eraseP.mpr ⟨hmem, ?_⟩
      intro heq
      simp only at heq
      subst heq
      exact hne (key_unique h.keysNodup hmem hm)

/-- The shutdown drain: set the flag, complete every pending call once,
leave the table untouched. -/
theorem InvC_terminate {sq : Nat} {p : List (Nat × Nat)} {cs : List Call}
    (err : Option GoErr) (h : InvC sq p cs false) :
    InvC sq p (drainCalls p err cs) true := by
  have hcases : ∀ cid, (drainCalls p err cs).getD cid dummyCall
        = cs.getD cid dummyCall ∨
      ((drainCalls p err cs).getD cid dummyCall
        = {cs.getD cid dummyCall with
            error := err, doneCount := (cs.getD cid dummyCall).doneCount + 1} ∧
        ∃ s, (s, cid) ∈ p) := by
    intro cid
    by_cases hmm : cid ∈ p.map Prod.snd
    · obtain ⟨e, he, hee⟩ := List.mem_map.mp hmm
      obtain ⟨e1, e2⟩ := e
      simp only at hee
      subst hee
      refine Or.inr ⟨?_, e1, he⟩
      exact drainCalls_getD_mem p err cs e1 _ h.cidsNodup he (h.pend _ he).2.1
    · refine Or.inl (drainCalls_getD_not_mem p err cs cid ?_)
      intro s hs
      exact hmm (by simpa using List.mem_map_of_mem Prod.snd hs)
  constructor
  · intro e he
    obtain ⟨h1, h2, h3, h4, h5⟩ := h.pend e he
    rw [if_neg (by simp)] at h5
    have he' : (e.1, e.2) ∈ p := by
      rw [Prod.mk.eta]
      exact he
    have hbump := drainCalls_getD_mem p err cs e.1 e.2 h.cidsNodup he' h2
    rw [hbump, drainCalls_length]
    refine ⟨h1, h2, h3, h4, ?_⟩
    rw [if_pos rfl]
    dsimp only
    omega
  · exact h.keysNodup
  · exact h.cidsNodup
  · intro cid s hs
    rcases hcases cid with hc | ⟨hc, _⟩
    · rw [hc] at hs ⊢
      exact h.assignedLt cid s hs
    · rw [hc] at hs ⊢
      dsimp only at hs ⊢
      exact h.assignedLt cid s hs
  · intro c1 c2 s hne h1 h2
    have hone : ∀ c', ((drainCalls p err cs).getD c' dummyCall).seqAssigned
        = (cs.getD c' dummyCall).seqAssigned := by
      intro c'
      rcases hcases c' with hc | ⟨hc, _⟩ <;> rw [hc]
    rw [hone] at h1 h2
    exact h.assignedInj c1 c2 s hne h1 h2
  · intro cid
    rcases hcases cid with hc | ⟨hc, s, hs⟩ <;> rw [hc]
    · exact h.doneLe cid
    · dsimp only
      have hdd := (h.pend _ hs).2.2.2.2
      rw [if_neg (by simp)] at hdd
      dsimp only at hdd
      omega
  · intro hsh
    simp at hsh

theorem sendRegister_seq (hr : Bool) (st : ClientState) :
    (sendRegister hr st).seq
      = (if hr then (st.seq + 1) % 2 ^ 64 else st.seq) := by
  unfold sendRegister
  cases hr <;> rfl

theorem sendWriteFail_seq (e : GoErr) (sq : Nat) (st : ClientState) :
    (sendWriteFail e sq st).seq = st.seq := by
  unfold sendWriteFail
  split <;> rfl

theorem send_seq_le (hr : Bool) (w : Option GoErr) (st : ClientState) :
    (send hr w st).seq ≤ st.seq + 1 := by
  have hmle : (st.seq + 1) % 2 ^ 64 ≤ st.seq + 1 := Nat.mod_le _ _
  unfold send
  split
  · exact Nat.le_succ _
  · cases w with
    | none =>
      dsimp only
      rw [sendRegister_seq]
      split <;> omega
    | some e =>
      dsimp only
      rw [sendWriteFail_seq, sendRegister_seq]
      split <;> omega

theorem send_seq_false (w : Option GoErr) (st : ClientState) :
    (send false w st).seq = st.seq := by
  unfold send
  split
  · rfl
  · cases w with
    | none =>
      dsimp only
      rw [sendRegister_seq]
      rfl
    | some e =>
      dsimp only
      rw [sendWriteFail_seq, sendRegister_seq]
      rfl

theorem recv_seq (r : Response) (st : ClientState) :
    (recv r st).seq = st.seq := by
  unfold recv
  split
  · rfl
  · split
    · rfl
    · split <;> rfl

theorem terminate_seq (st : ClientState) : (terminate st).seq = st.seq := rfl

theorem closeFst_seq (st : ClientState) : (Close st).1.seq = st.seq := by
  unfold Close
  split <;> rfl

theorem send_shutdown (hasReply : Bool) (w : Option GoErr) (st : ClientState) :
    (send hasReply w st).shutdown = st.shutdown := by
  unfold send sendRegister sendWriteFail
  split
  · rfl
  · cases hasReply <;> cases w <;> dsimp only
    · rfl
    · split <;> rfl
    · rfl
    · split <;> rfl

theorem recv_shutdown (r : Response) (st : ClientState) :
    (recv r st).shutdown = st.shutdown := by
  unfold recv
  split
  · rfl
  · split
    · rfl
    · split <;> rfl

theorem terminate_shutdown (st : ClientState) :
    (terminate st).shutdown = true := rfl

theorem close_shutdown (st : ClientState) :
    (Close st).1.shutdown = st.shutdown := by
  unfold Close
  split <;> rfl

theorem Inv_send (st : ClientState) (hasReply : Bool) (w : Option GoErr)
    (hbud : hasReply = true → st.seq + 1 < 2 ^ 64) (h : Inv st) :
    Inv (send hasReply w st) := by
  unfold Inv at h
  unfold Inv send sendRegister sendWriteFail
  by_cases hg : st.shutdown || st.closing
  · rw [if_pos hg]
    exact InvC_append _ h rfl (by simp)
  · rw [if_neg hg]
    have hsh : st.shutdown = false := by
      cases hb : st.shutdown
      · rfl
      · rw [hb] at hg
        simp at hg
    have hkeys : ∀ x ∈ st.pending, x.1 ≠ st.seq := fun x hx => by
      have := (h.pend x hx).1
      omega
    cases hasReply
    · dsimp only
      simp only [Bool.false_eq_true, if_false]
      cases w
      · dsimp only
        rw [hsh] at h ⊢
        exact InvC_append _ h rfl (by simp)
      · dsimp only
        have hl : lookupP st.pending st.seq = none :=
          lookupP_none_of_keys_ne hkeys
        rw [hl]
        dsimp only
        rw [eraseP_of_keys_ne hkeys]
        rw [hsh] at h ⊢
        exact InvC_append _ h rfl (by simp)
    · dsimp only
      simp only [reduceIte]
      have hb := hbud rfl
      have hmod : (st.seq + 1) % 2 ^ 64 = st.seq + 1 := Nat.mod_eq_of_lt hb
      have hins : insertP st.pending st.seq st.calls.length
          = (st.seq, st.calls.length) :: st.pending := by
        unfold insertP
        rw [eraseP_of_keys_ne hkeys]
      rw [hsh] at h ⊢
      rw [hmod, hins]
      cases w with
      | none =>
        dsimp only
        exact InvC_insert h
      | some e =>
        dsimp only
        rw [lookupP_cons_self]
        dsimp only
        have herase : eraseP ((st.seq, st.calls.length) :: st.pending) st.seq
            = st.pending := by
          unfold eraseP
          rw [List.filter_cons_of_neg (by simp)]
          exact eraseP_of_keys_ne hkeys
        rw [herase]
        have hres := InvC_recv_complete (InvC_insert h)
          (List.mem_cons_self _ _)
          (fun c => {c with error := some e, doneCount := c.doneCount + 1})
          (fun c => ⟨rfl, rfl, rfl⟩)
        rw [herase] at hres
        exact hres

theorem Inv_recv (st : ClientState) (r : Response) (hsh : st.shutdown = false)
    (h : Inv st) : Inv (recv r st) := by
  unfold Inv at h
  unfold Inv recv
  rw [hsh] at h
  split
  · exact hsh ▸ h
  · cases hl : lookupP st.pending r.seq
    · dsimp only
      rw [eraseP_of_keys_ne (lookupP_none_keys hl)]
      exact hsh ▸ h
    case some cid =>
      have hm := lookupP_mem hl
      dsimp only
      split
      · rw [hsh]
        exact InvC_recv_complete h hm
          (fun c => {c with error := some (.serverError r.error),
                            doneCount := c.doneCount + 1})
          (fun c => ⟨rfl, rfl, rfl⟩)
      · rw [hsh]
        exact InvC_recv_complete h hm
          (fun c => {c with reply := some r.data, doneCount := c.doneCount + 1})
          (fun c => ⟨rfl, rfl, rfl⟩)

theorem Inv_terminate (st : ClientState) (hsh : st.shutdown = false)
    (h : Inv st) : Inv (terminate st) := by
  unfold Inv at h
  unfold Inv terminate
  dsimp only
  rw [hsh] at h
  rw [if_neg (by simp)]
  exact InvC_terminate none h

theorem Inv_close (st : ClientState) (h : Inv st) : Inv (Close st).1 := by
  unfold Inv at h
  unfold Inv Close
  split
  · exact h
  · exact h

theorem Inv_foldl : ∀ (t : List Event) (st : ClientState),
    ValidFrom t st.shutdown = true → st.seq + sendCount t < 2 ^ 64 →
    Inv st → Inv (t.foldl step st)
  | [], st, _, _, h => h
  | .send true w :: t, st, hv, hc, h => by
    rw [List.foldl_cons]
    simp only [sendCount] at hc
    refine Inv_foldl t _ (by rw [show (step st (.send true w)).shutdown
        = st.shutdown from send_shutdown true w st]; exact hv) ?_
      (Inv_send st true w (fun _ => by omega) h)
    have h1 : (step st (.send true w)).seq ≤ st.seq + 1 := send_seq_le true w st
    omega
  | .send false w :: t, st, hv, hc, h => by
    rw [List.foldl_cons]
    simp only [sendCount] at hc
    refine Inv_foldl t _ (by rw [show (step st (.send false w)).shutdown
        = st.shutdown from send_shutdown false w st]; exact hv) ?_
      (Inv_send st false w (fun hh => by simp at hh) h)
    have h1 : (step st (.send false w)).seq = st.seq := send_seq_false w st
    omega
  | .close :: t, st, hv, hc, h => by
    rw [List.foldl_cons]
    simp only [sendCount] at hc
    refine Inv_foldl t _ (by rw [show (step st .close).shutdown = st.shutdown
      from close_shutdown st]; exact hv) ?_ (Inv_close st h)
    have h1 : (step st .close).seq = st.seq := closeFst_seq st
    omega
  | .recv r :: t, st, hv, hc, h => by
    rw [List.foldl_cons]
    simp only [ValidFrom, Bool.and_eq_true, Bool.not_eq_true'] at hv
    simp only [sendCount] at hc
    refine Inv_foldl t _ (by rw [show (step st (.recv r)).shutdown = st.shutdown
      from recv_shutdown r st, hv.1]; rw [hv.1] at hv; exact hv.2) ?_
      (Inv_recv st r hv.1 h)
    have h1 : (step st (.recv r)).seq = st.seq := recv_seq r st
    omega
  | .terminate :: t, st, hv, hc, h => by
    rw [List.foldl_cons]
    simp only [ValidFrom, Bool.and_eq_true, Bool.not_eq_true'] at hv
    simp only [sendCount] at hc
    refine Inv_foldl t _ (by rw [show (step st .terminate).shutdown = true
      from terminate_shutdown st]; exact hv.2) ?_ (Inv_terminate st hv.1 h)
    have h1 : (step st .terminate).seq = st.seq := terminate_seq st
    omega

/-- Every state reachable by a valid event trace of an engine that
issues fewer than `2^64` reply-expecting calls (the spec treats
sequence-counter wrap-around as unreachable) satisfies the
invariant. -/
theorem Inv_run (t : List Event) (hv : ValidTrace t = true)
    (hc : sendCount t < 2 ^ 64) : Inv (run t) :=
  Inv_foldl t initClient hv (by simpa [initClient] using hc) Inv_init

/-- The sequence counter never exceeds the number of reply-expecting
sends performed so far. -/
theorem foldl_seq_le : ∀ (t : List Event) (st : ClientState),
    (t.foldl step st).seq ≤ st.seq + sendCount t
  | [], st => by simp [sendCount]
  | .send true w :: t, st => by
    rw [List.foldl_cons]
    have h1 := foldl_seq_le t (step st (.send true w))
    have h2 : (step st (.send true w)).seq ≤ st.seq + 1 := send_seq_le true w st
    simp only [sendCount]
    omega
  | .send false w :: t, st => by
    rw [List.foldl_cons]
    have h1 := foldl_seq_le t (step st (.send false w))
    have h2 : (step st (.send false w)).seq = st.seq := send_seq_false w st
    simp only [sendCount]
    omega
  | .close :: t, st => by
    rw [List.foldl_cons]
    have h1 := foldl_seq_le t (step st .close)
    have h2 : (step st .close).seq = st.seq := closeFst_seq st
    simp only [sendCount]
    omega
  | .recv r :: t, st => by
    rw [List.foldl_cons]
    have h1 := foldl_seq_le t (step st (.recv r))
    have h2 : (step st (.recv r)).seq = st.seq := recv_seq r st
    simp only [sendCount]
    omega
  | .terminate :: t, st => by
    rw [List.foldl_cons]
    have h1 := foldl_seq_le t (step st .terminate)
    have h2 : (step st .terminate).seq = st.seq := terminate_seq st
    simp only [sendCount]
    omega

theorem run_seq_le (t : List Event) : (run t).seq ≤ sendCount t := by
  have := foldl_seq_le t initClient
  simpa [initClient, run] using this

theorem lookupP_insertP_self (p : List (Nat × Nat)) (s cid : Nat) :
    lookupP (insertP p s cid) s = some cid := by
  unfold insertP
  exact lookupP_cons_self s cid _

theorem lookupP_eraseP_ne {p : List (Nat × Nat)} {s s' : Nat} (hne : s ≠ s') :
    lookupP (eraseP p s') s = lookupP p s := by
  induction p with
  | nil => rfl
  | cons a p ih =>
    by_cases ha : a.1 = s'
    · have hdrop : eraseP (a :: p) s' = eraseP p s' := by
        unfold eraseP
        rw [List.filter_cons_of_neg (by simpa using ha)]
      have hskip : lookupP (a :: p) s = lookupP p s := by
        unfold lookupP
        rw [List.find?_cons_of_neg]
        simp only [decide_eq_true_eq]
        omega
      rw [hdrop, hskip, ih]
    · have hkeep : eraseP (a :: p) s' = a :: eraseP p s' := by
        unfold eraseP
        rw [List.filter_cons_of_pos (by simpa using ha)]
      rw [hkeep]
      by_cases has : a.1 = s
      · unfold lookupP
        rw [List.find?_cons_of_pos _ (by simpa using has),
          List.find?_cons_of_pos _ (by simpa using has)]
      · unfold lookupP
        rw [List.find?_cons_of_neg _ (by simpa using has),
          List.find?_cons_of_neg _ (by simpa using has)]
        exact ih

theorem snd_unique {p : List (Nat × Nat)} {s1 s2 c : Nat}
    (hnd : (p.map Prod.snd).Nodup) (ha : (s1, c) ∈ p) (hb : (s2, c) ∈ p) :
    s1 = s2 := by
  induction p with
  | nil => simp at ha
  | cons x p ih =>
    obtain ⟨x1, x2⟩ := x
    simp only [List.map_cons, List.nodup_cons] at hnd
    rcases List.mem_cons.mp ha with ha1 | ha1 <;>
      rcases List.mem_cons.mp hb with hb1 | hb1
    · have h1 : s1 = x1 := by simpa using congrArg Prod.fst ha1
      have h2 : s2 = x1 := by simpa using congrArg Prod.fst hb1
      rw [h1, h2]
    · have h1 : x2 = c := by simpa using (congrArg Prod.snd ha1).symm
      subst h1
      exact absurd (by simpa using List.mem_map_of_mem Prod.snd hb1) hnd.1
    · have h1 : x2 = c := by simpa using (congrArg Prod.snd hb1).symm
      subst h1
      exact absurd (by simpa using List.mem_map_of_mem Prod.snd ha1) hnd.1
    · exact ih hnd.2 ha1 hb1

end rpc

namespace rpc

theorem send_on_closed (st : ClientState) (hasReply : Bool)
    (w : Option GoErr) (hg : (st.shutdown || st.closing) = true) :
    send hasReply w st
      = {st with calls :=
          st.calls ++ [(⟨hasReply, some .shutdown, none, 1, none⟩ : Call)]} := by
  unfold send
  rw [if_pos hg]

theorem Close_pending (st : ClientState) : (Close st).1.pending = st.pending := by
  unfold Close
  split <;> rfl

theorem Close_writeCalls (st : ClientState) :
    (Close st).1.writeCalls = st.writeCalls := by
  unfold Close
  split <;> rfl

theorem Close_seq (st : ClientState) : (Close st).1.seq = st.seq := by
  unfold Close
  split <;> rfl

theorem Close_closing (st : ClientState) : (Close st).1.closing = true := by
  unfold Close
  split
  case isTrue h => exact h
  case isFalse h => rfl

/-- C2: a failed decode (in particular an incomplete frame in the
accumulation buffer) only stops the inner decode loop; the outer
receive loop goes on to the next stream read.  For every decoder and
every schedule of read results, the receive loop terminates (and runs
the pending-call drain) exactly when some stream read fails — never
because of the buffer's content. -/
theorem C2_loop_terminates_only_on_read_failure
    (decode : List Nat → Option (Response × List Nat))
    (reads : List ReadEvent) (st : ClientState) :
    (inputRun decode reads st).2 = reads.any isFail := by
  induction reads generalizing st with
  | nil => rfl
  | cons e reads ih =>
    cases e with
    | chunk bs =>
      simp only [inputRun, List.any_cons, isFail, Bool.false_or]
      exact ih _
    | fail er =>
      simp only [inputRun, List.any_cons, isFail, Bool.true_or]

/-- C1: evaluating the receive loop at the failing input — one pending
reply-expecting call, `closing` never set, and the peer closing the
stream (the first `Read` returns `io.EOF`).  The loop terminates and
drains the call, but the call completes with a nil error, not
`io.ErrUnexpectedEOF`: the `:=` at line 131 shadows the outer `err`,
so the classification at lines 185–191 (which matches the claim) is
dead code. -/
theorem C1_peer_eof_drains_with_nil_error :
    (inputRun (fun _ => none) [.fail .eof] (send true none initClient)).2 = true ∧
    (inputRun (fun _ => none) [.fail .eof]
        (send true none initClient)).1.closing = false ∧
    (inputRun (fun _ => none) [.fail .eof]
        (send true none initClient)).1.shutdown = true ∧
    ((inputRun (fun _ => none) [.fail .eof]
        (send true none initClient)).1.calls.getD 0 dummyCall).doneCount = 1 ∧
    ((inputRun (fun _ => none) [.fail .eof]
        (send true none initClient)).1.calls.getD 0 dummyCall).error = none ∧
    ((inputRun (fun _ => none) [.fail .eof]
        (send true none initClient)).1.calls.getD 0 dummyCall).error
      ≠ some .unexpectedEOF := by
  refine ⟨by decide, by decide, by decide, by decide, by decide, by decide⟩

/-- C6: after `Close()` — or after the receive loop has set `shutdown`
via its termination path — every subsequent `send` appends a call that
is already completed (`doneCount = 1`) with `ErrShutdown`, inserts
nothing into the pending table, assigns no sequence number, and never
invokes `writeRequest`. -/
theorem C6_send_after_close_or_shutdown (st : ClientState) (hasReply : Bool)
    (writeRes : Option GoErr) :
    ((send hasReply writeRes (Close st).1).calls
        = (Close st).1.calls ++ [(⟨hasReply, some .shutdown, none, 1, none⟩ : Call)] ∧
     (send hasReply writeRes (Close st).1).pending = st.pending ∧
     (send hasReply writeRes (Close st).1).writeCalls = st.writeCalls ∧
     (send hasReply writeRes (Close st).1).seq = st.seq) ∧
    ((send hasReply writeRes (terminate st)).calls
        = (terminate st).calls ++ [(⟨hasReply, some .shutdown, none, 1, none⟩ : Call)] ∧
     (send hasReply writeRes (terminate st)).pending = st.pending ∧
     (send hasReply writeRes (terminate st)).writeCalls = st.writeCalls ∧
     (send hasReply writeRes (terminate st)).seq = st.seq) := by
  have h1 : ((Close st).1.shutdown || (Close st).1.closing) = true := by
    rw [Close_closing]
    simp
  have h2 : ((terminate st).shutdown || (terminate st).closing) = true := by
    rw [terminate_shutdown]
    simp
  rw [send_on_closed _ _ _ h1, send_on_closed _ _ _ h2]
  exact ⟨⟨rfl, Close_pending st, Close_writeCalls st, Close_seq st⟩,
    ⟨rfl, rfl, rfl, rfl⟩⟩

theorem Close_calls (st : ClientState) : (Close st).1.calls = st.calls := by
  unfold Close
  split <;> rfl

theorem sendRegister_true (st : ClientState) :
    sendRegister true st
      = {st with seq := (st.seq + 1) % 2 ^ 64,
                 pending := insertP st.pending st.seq st.calls.length,
                 calls := st.calls ++ [(⟨true, none, none, 0, some st.seq⟩ : Call)],
                 writeCalls := st.writeCalls + 1} := rfl

theorem sendRegister_false (st : ClientState) :
    sendRegister false st
      = {st with calls := st.calls ++ [(⟨false, none, none, 0, none⟩ : Call)],
                 writeCalls := st.writeCalls + 1} := rfl

/-- Whatever the pending table holds, the write-failure path deletes the
entry for the captured sequence number. -/
theorem sendWriteFail_lookupP (e : GoErr) (sq : Nat) (st : ClientState) :
    lookupP (sendWriteFail e sq st).pending sq = none := by
  unfold sendWriteFail
  cases hl : lookupP st.pending sq with
  | none =>
    dsimp only
    exact lookupP_eraseP_self _ _
  | some cid =>
    dsimp only
    exact lookupP_eraseP_self _ _

/-- One receive-loop step can neither create an entry for `s0` nor touch
the call record at index `A` once no pending entry refers to `A`. -/
theorem recv_preserve (r : Response) (st : ClientState) (s0 A : Nat)
    (h1 : ∀ x ∈ st.pending, x.2 ≠ A)
    (h2 : lookupP st.pending s0 = none) :
    (∀ x ∈ (recv r st).pending, x.2 ≠ A) ∧
    lookupP (recv r st).pending s0 = none ∧
    (recv r st).calls.getD A dummyCall = st.calls.getD A dummyCall ∧
    (recv r st).calls.length = st.calls.length := by
  have herase1 : ∀ x ∈ eraseP st.pending r.seq, x.2 ≠ A := by
    intro x hx
    exact h1 x (mem_eraseP.mp hx).1
  have herase2 : lookupP (eraseP st.pending r.seq) s0 = none := by
    by_cases hqs : r.seq = s0
    · subst hqs
      exact lookupP_eraseP_self _ _
    · rw [lookupP_eraseP_ne (fun hh => hqs hh.symm)]
      exact h2
  unfold recv
  split
  · exact ⟨h1, h2, rfl, rfl⟩
  · cases hl : lookupP st.pending r.seq with
    | none =>
      exact ⟨herase1, herase2, rfl, rfl⟩
    | some cid =>
      have hcA : cid ≠ A := h1 _ (lookupP_mem hl)
      dsimp only
      split
      · dsimp only
        exact ⟨herase1, herase2,
          updateCall_getD_other _ _ _ _ hcA, updateCall_length _ _ _⟩
      · dsimp only
        exact ⟨herase1, herase2,
          updateCall_getD_other _ _ _ _ hcA, updateCall_length _ _ _⟩

/-- Once the call at index `A` has no pending entry, any run of
receive-loop and `Close` steps leaves its record, the absence of its
entries, and the absent `s0` key untouched. -/
theorem loopFold_untracked : ∀ (L : List Event) (st : ClientState) (s0 A : Nat),
    LoopOnly L = true →
    (∀ x ∈ st.pending, x.2 ≠ A) →
    lookupP st.pending s0 = none →
    (∀ x ∈ (L.foldl step st).pending, x.2 ≠ A) ∧
    lookupP (L.foldl step st).pending s0 = none ∧
    (L.foldl step st).calls.getD A dummyCall = st.calls.getD A dummyCall ∧
    (L.foldl step st).calls.length = st.calls.length
  | [], st, s0, A, _, h1, h2 => ⟨h1, h2, rfl, rfl⟩
  | .recv r :: L, st, s0, A, hL, h1, h2 => by
    rw [List.foldl_cons]
    have hL' : LoopOnly L = true := hL
    have hstep : step st (.recv r) = recv r st := rfl
    obtain ⟨g1, g2, g3, g4⟩ := recv_preserve r st s0 A h1 h2
    obtain ⟨k1, k2, k3, k4⟩ :=
      loopFold_untracked L (step st (.recv r)) s0 A hL'
        (by rw [hstep]; exact g1) (by rw [hstep]; exact g2)
    refine ⟨k1, k2, ?_, ?_⟩
    · rw [k3, hstep, g3]
    · rw [k4, hstep, g4]
  | .close :: L, st, s0, A, hL, h1, h2 => by
    rw [List.foldl_cons]
    have hL' : LoopOnly L = true := hL
    have hstep : step st .close = (Close st).1 := rfl
    obtain ⟨k1, k2, k3, k4⟩ :=
      loopFold_untracked L (step st .close) s0 A hL'
        (by rw [hstep, Close_pending]; exact h1)
        (by rw [hstep, Close_pending]; exact h2)
    refine ⟨k1, k2, ?_, ?_⟩
    · rw [k3, hstep, Close_calls]
    · rw [k4, hstep, Close_calls]
  | .send hr w :: L, st, s0, A, hL, _, _ => by
    exact Bool.noConfusion hL
  | .terminate :: L, st, s0, A, hL, _, _ => by
    exact Bool.noConfusion hL

/-- A receive-loop step that does not respond to `s0` keeps the `s0`
entry, the fact that only that entry can refer to index `A`, and the
record at `A`. -/
theorem recv_preserve_tracked (r : Response) (st : ClientState) (s0 A : Nat)
    (hnr : respondsTo s0 (.recv r) = false)
    (h1 : lookupP st.pending s0 = some A)
    (h2 : ∀ x ∈ st.pending, x.2 = A → x.1 = s0) :
    lookupP (recv r st).pending s0 = some A ∧
    (∀ x ∈ (recv r st).pending, x.2 = A → x.1 = s0) ∧
    (recv r st).calls.getD A dummyCall = st.calls.getD A dummyCall ∧
    (recv r st).calls.length = st.calls.length := by
  unfold recv
  split
  · exact ⟨h1, h2, rfl, rfl⟩
  case isFalse hk =>
    have hne : r.seq ≠ s0 := by
      intro hqs
      apply hk
      simp only [respondsTo, hqs, decide_True, Bool.true_and,
        Bool.not_eq_false'] at hnr
      exact hnr
    have herase : lookupP (eraseP st.pending r.seq) s0 = some A := by
      rw [lookupP_eraseP_ne (fun hh => hne hh.symm)]
      exact h1
    have herase2 : ∀ x ∈ eraseP st.pending r.seq, x.2 = A → x.1 = s0 := by
      intro x hx
      exact h2 x (mem_eraseP.mp hx).1
    cases hl : lookupP st.pending r.seq with
    | none =>
      exact ⟨herase, herase2, rfl, rfl⟩
    | some cid =>
      have hcm := lookupP_mem hl
      have hcA : cid ≠ A := by
        intro heq
        exact hne (h2 _ hcm heq)
      dsimp only
      split
      · dsimp only
        exact ⟨herase, herase2,
          updateCall_getD_other _ _ _ _ hcA, updateCall_length _ _ _⟩
      · dsimp only
        exact ⟨herase, herase2,
          updateCall_getD_other _ _ _ _ hcA, updateCall_length _ _ _⟩

/-- The racing completion: a response for `s0` reaching the receive loop
while the sender's write is in flight removes the entry and completes
the call once — with a `ServerError` or with the reply delivered and a
nil error, never with a write error. -/
theorem recv_responder (r : Response) (st : ClientState) (s0 A : Nat)
    (hr : respondsTo s0 (.recv r) = true)
    (h1 : lookupP st.pending s0 = some A)
    (h2 : ∀ x ∈ st.pending, x.2 = A → x.1 = s0)
    (hd : (st.calls.getD A dummyCall).doneCount = 0)
    (he : (st.calls.getD A dummyCall).error = none)
    (hA : A < st.calls.length) :
    (∀ x ∈ (recv r st).pending, x.2 ≠ A) ∧
    lookupP (recv r st).pending s0 = none ∧
    ((recv r st).calls.getD A dummyCall).doneCount = 1 ∧
    (((recv r st).calls.getD A dummyCall).error = none ∨
     ∃ msg, ((recv r st).calls.getD A dummyCall).error
       = some (GoErr.serverError msg)) ∧
    (recv r st).calls.length = st.calls.length := by
  simp only [respondsTo, Bool.and_eq_true, Bool.not_eq_true',
    decide_eq_true_eq] at hr
  obtain ⟨hqs, hknd⟩ := hr
  have hp1 : ∀ x ∈ eraseP st.pending s0, x.2 ≠ A := by
    intro x hx heq
    obtain ⟨hxp, hxne⟩ := mem_eraseP.mp hx
    exact hxne (h2 x hxp heq)
  have hp2 : lookupP (eraseP st.pending s0) s0 = none :=
    lookupP_eraseP_self _ _
  unfold recv
  rw [if_neg (by rw [hknd]; intro hh; exact Bool.noConfusion hh)]
  rw [hqs, h1]
  dsimp only
  split
  · dsimp only
    refine ⟨hp1, hp2, ?_, ?_, updateCall_length _ _ _⟩
    · rw [updateCall_getD_same _ _ _ hA]
      dsimp only
      omega
    · refine Or.inr ⟨r.error, ?_⟩
      rw [updateCall_getD_same _ _ _ hA]
  · dsimp only
    refine ⟨hp1, hp2, ?_, ?_, updateCall_length _ _ _⟩
    · rw [updateCall_getD_same _ _ _ hA]
      dsimp only
      omega
    · refine Or.inl ?_
      rw [updateCall_getD_same _ _ _ hA]
      exact he

/-- The in-flight dichotomy: between a send's registration and its
failed write, any run `L` of receive-loop and `Close` steps either
contains no response to the registered sequence number — then the entry
and the untouched call record survive — or contains one, and then the
call has been completed exactly once by the response (nil error with
the reply, or a `ServerError`) and its entry is gone. -/
theorem loopFold_dichotomy : ∀ (L : List Event) (st : ClientState) (s0 A : Nat),
    LoopOnly L = true →
    lookupP st.pending s0 = some A →
    (∀ x ∈ st.pending, x.2 = A → x.1 = s0) →
    (st.calls.getD A dummyCall).doneCount = 0 →
    (st.calls.getD A dummyCall).error = none →
    A < st.calls.length →
    ((L.all (fun ev => !respondsTo s0 ev) = true →
       lookupP (L.foldl step st).pending s0 = some A ∧
       (L.foldl step st).calls.getD A dummyCall = st.calls.getD A dummyCall) ∧
     (L.all (fun ev => !respondsTo s0 ev) = false →
       (∀ x ∈ (L.foldl step st).pending, x.2 ≠ A) ∧
       lookupP (L.foldl step st).pending s0 = none ∧
       ((L.foldl step st).calls.getD A dummyCall).doneCount = 1 ∧
       (((L.foldl step st).calls.getD A dummyCall).error = none ∨
        ∃ msg, ((L.foldl step st).calls.getD A dummyCall).error
          = some (GoErr.serverError msg))) ∧
     (L.foldl step st).calls.length = st.calls.length)
  | [], st, s0, A, _, h1, h2, hd, he, hA => by
    refine ⟨fun _ => ⟨h1, rfl⟩, fun hf => ?_, rfl⟩
    simp at hf
  | .recv r :: L, st, s0, A, hL, h1, h2, hd, he, hA => by
    rw [List.foldl_cons]
    have hL' : LoopOnly L = true := hL
    have hstep : step st (.recv r) = recv r st := rfl
    by_cases hresp : respondsTo s0 (.recv r) = true
    · obtain ⟨g1, g2, g3, g4, g5⟩ := recv_responder r st s0 A hresp h1 h2 hd he hA
      obtain ⟨k1, k2, k3, k4⟩ :=
        loopFold_untracked L (step st (.recv r)) s0 A hL'
          (by rw [hstep]; exact g1) (by rw [hstep]; exact g2)
      refine ⟨fun hall => ?_, fun _ => ?_, ?_⟩
      · exfalso
        simp only [List.all_cons, hresp, Bool.not_true, Bool.false_and] at hall
        exact Bool.noConfusion hall
      · refine ⟨k1, k2, ?_, ?_⟩
        · rw [k3, hstep]
          exact g3
        · rw [k3, hstep]
          exact g4
      · rw [k4, hstep, g5]
    · have hnr : respondsTo s0 (.recv r) = false := by
        cases hh : respondsTo s0 (.recv r)
        · rfl
        · exact absurd hh hresp
      obtain ⟨g1, g2, g3, g4⟩ := recv_preserve_tracked r st s0 A hnr h1 h2
      obtain ⟨k1, k2, k3⟩ :=
        loopFold_dichotomy L (step st (.recv r)) s0 A hL'
          (by rw [hstep]; exact g1) (by rw [hstep]; exact g2)
          (by rw [hstep, g3]; exact hd) (by rw [hstep, g3]; exact he)
          (by rw [hstep, g4]; exact hA)
      refine ⟨fun hall => ?_, fun hall => ?_, ?_⟩
      · simp only [List.all_cons, hnr, Bool.not_false, Bool.true_and] at hall
        obtain ⟨m1, m2⟩ := k1 hall
        exact ⟨m1, by rw [m2, hstep, g3]⟩
      · simp only [List.all_cons, hnr, Bool.not_false, Bool.true_and] at hall
        exact k2 hall
      · rw [k3, hstep, g4]
  | .close :: L, st, s0, A, hL, h1, h2, hd, he, hA => by
    rw [List.foldl_cons]
    have hL' : LoopOnly L = true := hL
    have hstep : step st .close = (Close st).1 := rfl
    have hnr : respondsTo s0 Event.close = false := rfl
    obtain ⟨k1, k2, k3⟩ :=
      loopFold_dichotomy L (step st .close) s0 A hL'
        (by rw [hstep, Close_pending]; exact h1)
        (by rw [hstep, Close_pending]; exact h2)
        (by rw [hstep, Close_calls]; exact hd)
        (by rw [hstep, Close_calls]; exact he)
        (by rw [hstep, Close_calls]; exact hA)
    refine ⟨fun hall => ?_, fun hall => ?_, ?_⟩
    · simp only [List.all_cons, hnr, Bool.not_false, Bool.true_and] at hall
      obtain ⟨m1, m2⟩ := k1 hall
      exact ⟨m1, by rw [m2, hstep, Close_calls]⟩
    · simp only [List.all_cons, hnr, Bool.not_false, Bool.true_and] at hall
      exact k2 hall
    · rw [k3, hstep, Close_calls]
  | .send hr w :: L, st, s0, A, hL, _, _, _, _, _ => by
    exact Bool.noConfusion hL
  | .terminate :: L, st, s0, A, hL, _, _, _, _, _ => by
    exact Bool.noConfusion hL

end rpc

namespace rpc

/-- C7: the claim's if-and-only-if fails after the receive loop's drain:
in the trace "one reply-expecting call, then stream termination", the
drained call has been completed (`doneCount = 1`, no longer awaiting a
response), yet its entry is still in the pending table, because the
drain never deletes entries. -/
theorem C7_counterexample_entry_outlives_completion :
    ValidTrace [.send true none, .terminate] = true ∧
    lookupP (run [.send true none, .terminate]).pending 0 = some 0 ∧
    ((run [.send true none, .terminate]).calls.getD 0 dummyCall).doneCount = 1 := by
  refine ⟨by decide, by decide, by decide⟩

/-- C7 (amended): a fire-and-forget call (nil Reply) is never inserted
into the pending table — every entry refers to a reply-expecting call —
and while the receive loop is still running (`shutdown` not yet set) the
table holds an entry for sequence number `s` iff a reply-expecting call
was assigned `s` and has not been completed.  After the shutdown drain,
entries of the drained (already completed) calls remain in the table.
Proved for every engine lifetime with fewer than `2^64` reply-expecting
calls, so the `uint64` sequence counter never wraps (the spec treats
wrap-around as unreachable). -/
theorem C7_pending_iff_awaiting (t : List Event) (hv : ValidTrace t = true)
    (hc : sendCount t < 2 ^ 64) :
    (∀ s cid, lookupP (run t).pending s = some cid →
      ((run t).calls.getD cid dummyCall).hasReply = true) ∧
    ((run t).shutdown = false →
      ∀ s, (∃ cid, lookupP (run t).pending s = some cid) ↔
        (∃ cid, cid < (run t).calls.length ∧
          ((run t).calls.getD cid dummyCall).hasReply = true ∧
          ((run t).calls.getD cid dummyCall).seqAssigned = some s ∧
          ((run t).calls.getD cid dummyCall).doneCount = 0)) := by
  have h := Inv_run t hv hc
  constructor
  · intro s cid hl
    exact (h.pend _ (lookupP_mem hl)).2.2.1
  · intro hsh s
    constructor
    · rintro ⟨cid, hl⟩
      have hm := lookupP_mem hl
      obtain ⟨h1, h2, h3, h4, h5⟩ := h.pend _ hm
      rw [hsh] at h5
      rw [if_neg (by simp)] at h5
      exact ⟨cid, h2, h3, h4, h5⟩
    · rintro ⟨cid, h1, h2, h3, h4⟩
      exact ⟨cid, lookupP_of_mem h.keysNodup
        (h.complete hsh cid s h1 h2 h3 h4)⟩

/-- Witness for C7 (amended) on the one-call trace. -/
theorem C7_witness :
    ValidTrace [.send true none] = true ∧
    sendCount [.send true none] < 2 ^ 64 ∧
    ((∀ s cid, lookupP (run [.send true none]).pending s = some cid →
      ((run [.send true none]).calls.getD cid dummyCall).hasReply = true) ∧
    ((run [.send true none]).shutdown = false →
      ∀ s, (∃ cid, lookupP (run [.send true none]).pending s = some cid) ↔
        (∃ cid, cid < (run [.send true none]).calls.length ∧
          ((run [.send true none]).calls.getD cid dummyCall).hasReply = true ∧
          ((run [.send true none]).calls.getD cid dummyCall).seqAssigned = some s ∧
          ((run [.send true none]).calls.getD cid dummyCall).doneCount = 0))) :=
  ⟨by decide, by decide,
   C7_pending_iff_awaiting [.send true none] (by decide) (by decide)⟩

/-- C8: the claim fails on the shutdown drain: after "one
reply-expecting call, then stream termination", the call has been
completed but its pending-table entry remains — the drain signals
completion without removing entries. -/
theorem C8_counterexample_completed_entry_remains :
    ValidTrace [.send true none, .terminate] = true ∧
    ((run [.send true none, .terminate]).calls.getD 0 dummyCall).doneCount = 1 ∧
    (0, 0) ∈ (run [.send true none, .terminate]).pending := by
  refine ⟨by decide, by decide, by decide⟩

/-- C8 (amended): over the engine's lifetime every assigned sequence
number is unique, and no call is ever completed twice (`done()` runs at
most once per call); the response path and the send-path write failure
remove the entry at the moment they complete the call, but the shutdown
drain completes the remaining calls without removing their entries.
Proved for every engine lifetime with fewer than `2^64` reply-expecting
calls, so the `uint64` sequence counter never wraps (the spec treats
wrap-around as unreachable). -/
theorem C8_seq_unique_completion_once (t : List Event) (hv : ValidTrace t = true)
    (hc : sendCount t < 2 ^ 64) :
    (∀ c1 c2 s, c1 ≠ c2 →
      ((run t).calls.getD c1 dummyCall).seqAssigned = some s →
      ((run t).calls.getD c2 dummyCall).seqAssigned = some s → False) ∧
    (∀ cid, ((run t).calls.getD cid dummyCall).doneCount ≤ 1) ∧
    (∀ r : Response, r.kind ≠ .handlerPush → r.kind ≠ .handlerResponse →
      lookupP (recv r (run t)).pending r.seq = none) ∧
    (∀ e : GoErr, lookupP (send true (some e) (run t)).pending (run t).seq = none) := by
  have h := Inv_run t hv hc
  refine ⟨h.assignedInj, h.doneLe, ?_, ?_⟩
  · intro r hk1 hk2
    unfold recv
    rw [if_neg (by simp [hk1, hk2])]
    cases hl : lookupP (run t).pending r.seq
    · dsimp only
      exact lookupP_eraseP_self _ _
    · dsimp only
      split
      · exact lookupP_eraseP_self _ _
      · exact lookupP_eraseP_self _ _
  · intro e
    unfold send
    by_cases hg : ((run t).shutdown || (run t).closing) = true
    · rw [if_pos hg]
      dsimp only
      exact lookupP_none_of_keys_ne (fun x hx => by
        have := (h.pend x hx).1
        omega)
    · rw [if_neg hg]
      exact sendWriteFail_lookupP e (run t).seq _

/-- Witness for C8 (amended) on the empty trace. -/
theorem C8_witness :
    ValidTrace [] = true ∧
    sendCount [] < 2 ^ 64 ∧
    ((∀ c1 c2 s, c1 ≠ c2 →
      ((run []).calls.getD c1 dummyCall).seqAssigned = some s →
      ((run []).calls.getD c2 dummyCall).seqAssigned = some s → False) ∧
    (∀ cid, ((run []).calls.getD cid dummyCall).doneCount ≤ 1) ∧
    (∀ r : Response, r.kind ≠ .handlerPush → r.kind ≠ .handlerResponse →
      lookupP (recv r (run [])).pending r.seq = none) ∧
    (∀ e : GoErr, lookupP (send true (some e) (run [])).pending (run []).seq = none)) :=
  ⟨by decide, by decide, C8_seq_unique_completion_once [] (by decide) (by decide)⟩

end rpc

namespace rpc

/-- C9: the claim fails for fire-and-forget calls.  When the single
event is a fire-and-forget `send` whose stream write fails, the call is
never completed: its `Done` channel never fires and its error slot stays
nil, because the error path re-reads `client.pending[seq]` and a
fire-and-forget call was never inserted there. -/
theorem C9_counterexample_fire_and_forget_dropped :
    ValidTrace [.send false (some (.writeErr 0))] = true ∧
    ((run [.send false (some (.writeErr 0))]).calls.getD 0 dummyCall).doneCount = 0 ∧
    ((run [.send false (some (.writeErr 0))]).calls.getD 0 dummyCall).error = none := by
  refine ⟨by decide, by decide, by decide⟩

/-- C9 (amended): on a write failure in the send path of a running
engine (with fewer than `2^64` reply-expecting calls over its lifetime,
so the fresh sequence number collides with no stale pending key), for
every interleaving `L` of receive-loop and `Close` steps between the
mutex-protected registration and the failed write: a reply-expecting
call is completed exactly once and its pending entry is removed; when
run atomically the pending table is restored exactly and the call
carries the write error; with interleavings, if no response for its
sequence number raced in it is completed with the write error, and if
one did race in, the response — not the write error — completed it (a
nil error with the reply delivered, or a `ServerError`) and the error
path finds no entry and changes no call record.  A fire-and-forget
call is never completed at all: the error path re-reads
`client.pending[seq]`, finds nothing, and the call's `Done` never
fires and its error stays nil. -/
theorem C9_write_failure_race (t : List Event) (hv : ValidTrace t = true)
    (hc : sendCount t + 1 < 2 ^ 64) (hcl : (run t).closing = false)
    (hsh : (run t).shutdown = false) (e : GoErr) (L : List Event)
    (hL : LoopOnly L = true) :
    ((send true (some e) (run t)).pending = (run t).pending ∧
     (send true (some e) (run t)).calls.getD (run t).calls.length dummyCall
       = ⟨true, some e, none, 1, some (run t).seq⟩) ∧
    (((sendWriteFail e (run t).seq
          (L.foldl step (sendRegister true (run t)))).calls.getD
          (run t).calls.length dummyCall).doneCount = 1 ∧
     lookupP (sendWriteFail e (run t).seq
          (L.foldl step (sendRegister true (run t)))).pending (run t).seq = none ∧
     (∀ cid, cid ≠ (run t).calls.length →
       (sendWriteFail e (run t).seq
           (L.foldl step (sendRegister true (run t)))).calls.getD cid dummyCall
         = (L.foldl step (sendRegister true (run t))).calls.getD cid dummyCall) ∧
     (L.all (fun ev => !respondsTo (run t).seq ev) = true →
       (sendWriteFail e (run t).seq
           (L.foldl step (sendRegister true (run t)))).calls.getD
           (run t).calls.length dummyCall
         = ⟨true, some e, none, 1, some (run t).seq⟩) ∧
     (L.all (fun ev => !respondsTo (run t).seq ev) = false →
       (sendWriteFail e (run t).seq
           (L.foldl step (sendRegister true (run t)))).calls
         = (L.foldl step (sendRegister true (run t))).calls ∧
       (((L.foldl step (sendRegister true (run t))).calls.getD
           (run t).calls.length dummyCall).error = none ∨
        ∃ msg, ((L.foldl step (sendRegister true (run t))).calls.getD
           (run t).calls.length dummyCall).error
          = some (GoErr.serverError msg)))) ∧
    ((sendWriteFail e (run t).seq
        (L.foldl step (sendRegister false (run t)))).calls.getD
        (run t).calls.length dummyCall = ⟨false, none, none, 0, none⟩ ∧
     ((sendWriteFail e (run t).seq
        (L.foldl step (sendRegister false (run t)))).calls.getD
        (run t).calls.length dummyCall).doneCount = 0 ∧
     ((sendWriteFail e (run t).seq
        (L.foldl step (sendRegister false (run t)))).calls.getD
        (run t).calls.length dummyCall).error = none) := by
  have h := Inv_run t hv (by omega)
  have hkeys : ∀ x ∈ (run t).pending, x.1 ≠ (run t).seq := fun x hx => by
    have := (h.pend x hx).1
    omega
  have hcids : ∀ x ∈ (run t).pending, x.2 < (run t).calls.length := fun x hx =>
    (h.pend x hx).2.1
  have hg : ¬ (((run t).shutdown || (run t).closing) = true) := by
    rw [hsh, hcl]
    simp
  have hpendMid : (sendRegister true (run t)).pending
      = ((run t).seq, (run t).calls.length) :: (run t).pending := by
    rw [sendRegister_true]
    dsimp only
    unfold insertP
    rw [eraseP_of_keys_ne hkeys]
  have hcallsMid : (sendRegister true (run t)).calls
      = (run t).calls ++ [(⟨true, none, none, 0, some (run t).seq⟩ : Call)] := by
    rw [sendRegister_true]
  have hm1 : lookupP (sendRegister true (run t)).pending (run t).seq
      = some (run t).calls.length := by
    rw [hpendMid]
    exact lookupP_cons_self _ _ _
  have hm2 : ∀ x ∈ (sendRegister true (run t)).pending,
      x.2 = (run t).calls.length → x.1 = (run t).seq := by
    rw [hpendMid]
    intro x hx heq
    rcases List.mem_cons.mp hx with hx1 | hx1
    · rw [hx1]
    · exact absurd heq (by have := hcids x hx1; omega)
  have hgd : (sendRegister true (run t)).calls.getD (run t).calls.length dummyCall
      = ⟨true, none, none, 0, some (run t).seq⟩ := by
    rw [hcallsMid]
    exact getDc_append_self _ _
  have hm5 : (run t).calls.length < (sendRegister true (run t)).calls.length := by
    rw [hcallsMid]
    simp
  obtain ⟨hT, hF, hlen⟩ := loopFold_dichotomy L (sendRegister true (run t))
    (run t).seq (run t).calls.length hL hm1 hm2 (by rw [hgd]) (by rw [hgd]) hm5
  have hlt : (run t).calls.length
      < (L.foldl step (sendRegister true (run t))).calls.length := by
    rw [hlen]
    exact hm5
  refine ⟨⟨?_, ?_⟩, ⟨?_, sendWriteFail_lookupP e (run t).seq _, ?_, ?_, ?_⟩, ?_⟩
  · -- atomic run: pending restored exactly
    unfold send
    rw [if_neg hg]
    dsimp only
    unfold sendWriteFail
    rw [hm1]
    dsimp only
    rw [hpendMid]
    unfold eraseP
    rw [List.filter_cons_of_neg (by simp)]
    exact eraseP_of_keys_ne hkeys
  · -- atomic run: the call carries the write error
    unfold send
    rw [if_neg hg]
    dsimp only
    unfold sendWriteFail
    rw [hm1]
    dsimp only
    rw [updateCall_getD_same _ _ _ hm5, hgd]
  · -- completed exactly once
    by_cases hall : L.all (fun ev => !respondsTo (run t).seq ev) = true
    · obtain ⟨m1, m2⟩ := hT hall
      unfold sendWriteFail
      rw [m1]
      dsimp only
      rw [updateCall_getD_same _ _ _ hlt, m2, hgd]
    · have hallf : L.all (fun ev => !respondsTo (run t).seq ev) = false := by
        rw [← Bool.not_eq_true]
        exact hall
      obtain ⟨m1, m2, m3, m4⟩ := hF hallf
      unfold sendWriteFail
      rw [m2]
      dsimp only
      exact m3
  · -- no other call record is touched by the error path
    intro cid hcid
    by_cases hall : L.all (fun ev => !respondsTo (run t).seq ev) = true
    · obtain ⟨m1, m2⟩ := hT hall
      unfold sendWriteFail
      rw [m1]
      dsimp only
      exact updateCall_getD_other _ _ _ _ (fun hh => hcid hh.symm)
    · have hallf : L.all (fun ev => !respondsTo (run t).seq ev) = false := by
        rw [← Bool.not_eq_true]
        exact hall
      obtain ⟨m1, m2, m3, m4⟩ := hF hallf
      unfold sendWriteFail
      rw [m2]
  · -- no racing response: completed with the write error
    intro hall
    obtain ⟨m1, m2⟩ := hT hall
    unfold sendWriteFail
    rw [m1]
    dsimp only
    rw [updateCall_getD_same _ _ _ hlt, m2, hgd]
  · -- racing response: the error path finds no entry and changes nothing
    intro hall
    obtain ⟨m1, m2, m3, m4⟩ := hF hall
    refine ⟨?_, m4⟩
    unfold sendWriteFail
    rw [m2]
  · -- fire-and-forget: never completed, error stays nil
    have hpF : (sendRegister false (run t)).pending = (run t).pending := by
      rw [sendRegister_false]
    have hcF : (sendRegister false (run t)).calls
        = (run t).calls ++ [(⟨false, none, none, 0, none⟩ : Call)] := by
      rw [sendRegister_false]
    obtain ⟨u1, u2, u3, u4⟩ := loopFold_untracked L (sendRegister false (run t))
      (run t).seq (run t).calls.length hL
      (by rw [hpF]; intro x hx; have := hcids x hx; omega)
      (by rw [hpF]; exact lookupP_none_of_keys_ne hkeys)
    have hendF : (sendWriteFail e (run t).seq
        (L.foldl step (sendRegister false (run t)))).calls
        = (L.foldl step (sendRegister false (run t))).calls := by
      unfold sendWriteFail
      rw [u2]
    have hgdF : (L.foldl step (sendRegister false (run t))).calls.getD
        (run t).calls.length dummyCall = ⟨false, none, none, 0, none⟩ := by
      rw [u3, hcF]
      exact getDc_append_self _ _
    exact ⟨by rw [hendF, hgdF], by rw [hendF, hgdF], by rw [hendF, hgdF]⟩

/-- Witness for C9 (amended): the empty prior trace, write error 0, and
the one-event interleaving in which the peer's response for sequence
number 0 races the failed write. -/
theorem C9_witness :
    ValidTrace [] = true ∧
    sendCount [] + 1 < 2 ^ 64 ∧
    (run []).closing = false ∧
    (run []).shutdown = false ∧
    LoopOnly [.recv ⟨.remoteResponse, 0, "", [7]⟩] = true ∧
    (((send true (some (.writeErr 0)) (run [])).pending = (run []).pending ∧
     (send true (some (.writeErr 0)) (run [])).calls.getD
         (run []).calls.length dummyCall
       = ⟨true, some (.writeErr 0), none, 1, some (run []).seq⟩) ∧
    (((sendWriteFail (.writeErr 0) (run []).seq
          ([.recv ⟨.remoteResponse, 0, "", [7]⟩].foldl step
            (sendRegister true (run [])))).calls.getD
          (run []).calls.length dummyCall).doneCount = 1 ∧
     lookupP (sendWriteFail (.writeErr 0) (run []).seq
          ([.recv ⟨.remoteResponse, 0, "", [7]⟩].foldl step
            (sendRegister true (run [])))).pending (run []).seq = none ∧
     (∀ cid, cid ≠ (run []).calls.length →
       (sendWriteFail (.writeErr 0) (run []).seq
           ([.recv ⟨.remoteResponse, 0, "", [7]⟩].foldl step
             (sendRegister true (run [])))).calls.getD cid dummyCall
         = ([.recv ⟨.remoteResponse, 0, "", [7]⟩].foldl step
             (sendRegister true (run []))).calls.getD cid dummyCall) ∧
     ([.recv ⟨.remoteResponse, 0, "", [7]⟩].all
         (fun ev => !respondsTo (run []).seq ev) = true →
       (sendWriteFail (.writeErr 0) (run []).seq
           ([.recv ⟨.remoteResponse, 0, "", [7]⟩].foldl step
             (sendRegister true (run [])))).calls.getD
           (run []).calls.length dummyCall
         = ⟨true, some (.writeErr 0), none, 1, some (run []).seq⟩) ∧
     ([.recv ⟨.remoteResponse, 0, "", [7]⟩].all
         (fun ev => !respondsTo (run []).seq ev) = false →
       (sendWriteFail (.writeErr 0) (run []).seq
           ([.recv ⟨.remoteResponse, 0, "", [7]⟩].foldl step
             (sendRegister true (run [])))).calls
         = ([.recv ⟨.remoteResponse, 0, "", [7]⟩].foldl step
             (sendRegister true (run []))).calls ∧
       ((([.recv ⟨.remoteResponse, 0, "", [7]⟩].foldl step
           (sendRegister true (run []))).calls.getD
           (run []).calls.length dummyCall).error = none ∨
        ∃ msg, (([.recv ⟨.remoteResponse, 0, "", [7]⟩].foldl step
           (sendRegister true (run []))).calls.getD
           (run []).calls.length dummyCall).error
          = some (GoErr.serverError msg)))) ∧
    ((sendWriteFail (.writeErr 0) (run []).seq
        ([.recv ⟨.remoteResponse, 0, "", [7]⟩].foldl step
          (sendRegister false (run [])))).calls.getD
        (run []).calls.length dummyCall = ⟨false, none, none, 0, none⟩ ∧
     ((sendWriteFail (.writeErr 0) (run []).seq
        ([.recv ⟨.remoteResponse, 0, "", [7]⟩].foldl step
          (sendRegister false (run [])))).calls.getD
        (run []).calls.length dummyCall).doneCount = 0 ∧
     ((sendWriteFail (.writeErr 0) (run []).seq
        ([.recv ⟨.remoteResponse, 0, "", [7]⟩].foldl step
          (sendRegister false (run [])))).calls.getD
        (run []).calls.length dummyCall).error = none)) :=
  ⟨by decide, by decide, by decide, by decide, by decide,
   C9_write_failure_race [] (by decide) (by decide) (by decide) (by decide)
     (.writeErr 0) [.recv ⟨.remoteResponse, 0, "", [7]⟩] (by decide)⟩

end rpc
